import Mathlib

/-!
Verification of `perfprof.py` (performance-profile plotting, single function
`perfprof`).  The numeric domain of the program is IEEE doubles used as exact
reals together with NaN ("missing" measurements); we embed a value as
`Option ℚ`, with `none` playing the role of NaN: every arithmetic operation
and comparison of the source propagates / rejects NaN exactly as the numpy
operations do on the inputs considered here (all finite entries positive, so
division by zero and infinities never arise).
-/

/-- A matrix entry: `some q` is a finite double, `none` is NaN (missing). -/
abbrev Val := Option ℚ

/-- NaN-propagating minimum, as numpy's `np.min` reduction behaves on doubles:
the minimum of anything with NaN is NaN. -/
def nanMin : Val → Val → Val
  | some a, some b => some (min a b)
  | _, _ => none

/-- NaN-propagating maximum (numpy `np.max` reduction). -/
def nanMax : Val → Val → Val
  | some a, some b => some (max a b)
  | _, _ => none

/-- NaN-propagating division.  On the inputs considered in this development
the divisor is always a nonzero finite value, so the IEEE special cases
`x / 0 = ±inf` and `0 / 0 = NaN` never arise. -/
def nanDiv : Val → Val → Val
  | some a, some b => some (a / b)
  | _, _ => none

/-- `np.min(row)` for one row (line 129, `axis=1`): a NaN-propagating fold
over the row.  numpy errors on an empty reduction; rows are nonempty in the
data model, and we return `none` there. -/
def rowMin : List Val → Val
  | [] => none
  | x :: xs => xs.foldl nanMin x

/-- `np.max(row)` for one row (line 131, `axis=1`). -/
def rowMax : List Val → Val
  | [] => none
  | x :: xs => xs.foldl nanMax x

/-- `np.max` of a vector (outer reduction of line 131). -/
def listNanMax : List Val → Val
  | [] => none
  | x :: xs => xs.foldl nanMax x

/-- The `ppfix` small-value adjustment applied to one entry
(lines 125-127): indicator arithmetic
`(v >= fmax) * v + (v < fmax) * (fmin + v*(fmax-fmin)/fmax)`.
Both comparisons are false on NaN and multiplication keeps NaN, so a NaN
entry stays NaN. -/
def ppfixEntry (fmin fmax : ℚ) : Val → Val
  | none => none
  | some v =>
      some ((if fmax ≤ v then (1 : ℚ) else 0) * v +
        (if v < fmax then (1 : ℚ) else 0) * (fmin + v * (fmax - fmin) / fmax))

/-- `np.unique` (line 152): the sorted list of distinct values. -/
def npUnique (l : List ℚ) : List ℚ :=
  List.insertionSort (· ≤ ·) l.dedup

/-- The index vector `k = floor(arange(0, r, 0.5))` of line 160:
`[0, 0, 1, 1, ..., r-1, r-1]`, i.e. `i / 2` for `i < 2r`. -/
def kIdx (r : ℕ) : List ℕ :=
  (List.range (2 * r)).map (fun i => i / 2)

/-- `x = theta[k[1:]]` (line 161). -/
def stairX (theta : List ℚ) : List ℚ :=
  (kIdx theta.length).tail.map (fun i => theta.getD i 0)

/-- `y = prob[k[0:-1]]` (line 162). -/
def stairY (prob : List ℚ) : List ℚ :=
  (kIdx prob.length).dropLast.map (fun i => prob.getD i 0)

/-- The left-boundary extension of lines 165-167: when the first x-value is
at least `1 + tol`, prepend the points `(1, 0)` and `(x[0], 0)`. -/
def leftExt (tol : ℚ) (xy : List ℚ × List ℚ) : List ℚ × List ℚ :=
  if 1 + tol ≤ xy.1.headD 0 then (1 :: xy.1.headD 0 :: xy.1, 0 :: 0 :: xy.2) else xy

/-- The right-boundary extension of lines 168-170: when the last x-value is
below `thmax - tol`, append the point `(thmax, y[-1])`. -/
def rightExt (tol tm : ℚ) (xy : List ℚ × List ℚ) : List ℚ × List ℚ :=
  if xy.1.getLastD 0 < tm - tol then (xy.1 ++ [tm], xy.2 ++ [xy.2.getLastD 0]) else xy

/-- The endpoint adjustments of lines 164-170, in source order: the left
extension first, then the right one.  `thmaxV` is the resolved `thmax` as a
possibly-NaN value; a comparison against NaN is false, so a NaN `thmax`
never triggers the right extension. -/
def addEnds (tol : ℚ) (thmaxV : Val) (x y : List ℚ) : List ℚ × List ℚ :=
  match thmaxV with
  | none => leftExt tol (x, y)
  | some tm => rightExt tol tm (leftExt tol (x, y))

/-- The per-column probabilities (lines 154-157):
`prob[k]` is the number of column entries `≤ theta[k]`, divided by `m`. -/
def probList (col : List ℚ) (m : ℕ) : List ℚ :=
  (npUnique col).map (fun t => ((col.countP (fun c => decide (c ≤ t))) : ℚ) / (m : ℚ))

/-- The body of the per-algorithm loop (lines 146-170): drop NaN ratios, skip
the column when none remain, otherwise build `theta`, `prob`, the staircase
points and the endpoint extensions. -/
def perfCurve (tol : ℚ) (thmaxV : Val) (m : ℕ) (colRaw : List Val) :
    Option (List ℚ × List ℚ) :=
  let col : List ℚ := colRaw.filterMap id
  if col.length = 0 then none
  else
    let theta := npUnique col
    let prob := probList col m
    some (addEnds tol thmaxV (stairX theta) (stairY prob))

/-- The ratio column `data[:, alt] / minvals` of line 146 (`minvals` is the
row-minimum vector; entries are paired rowwise). -/
def ratioCol (data1 : List (List Val)) (minvals : List Val) (j : ℕ) : List Val :=
  List.zipWith (fun row mv => nanDiv (row.getD j none) mv) data1 minvals

/-- Configuration record: the keyword arguments of `perfprof` that the claims
are about.  `none` plays Python's `None` for the optional ones. -/
structure Config where
  linespecs? : Option (List String)
  thmax? : Option ℚ
  tol : ℚ
  legendnames? : Option (List String)
  ppfix : Bool
  ppfixmin : ℚ
  ppfixmax : ℚ
  usetex? : Option Bool

/-- The Python exceptions the function can raise on the modelled paths:
`TypeError` from `len(None)` (line 134 with `linespecs=None`), and the two
`ValueError`s of lines 134-141. -/
inductive PerfError
  | typeError
  | linespecsMismatch
  | legendMismatch
deriving DecidableEq

/-- Execution stages of the function body, recorded in the order the
statements of `perfprof` execute (lines 115-199); used to express
"happens before" facts about validation versus computation. -/
inductive Stage
  | texSet
  | convert
  | smallFix
  | minvalsS
  | thmaxAutoS
  | shapeS
  | figureS
  | curveBuild
  | renderS
  | texRestore
deriving DecidableEq

/-- Result of one call: the stages that executed, the final ambient value of
the `text.usetex` rendering flag, and either an exception or the list of
per-algorithm curves (`none` for an all-NaN column, which is skipped). -/
structure PerfResult where
  stages : List Stage
  texFinal : Bool
  result : Except PerfError (List (Option (List ℚ × List ℚ)))

/-- The data matrix after the conversion of line 122 (numeric identity here)
and the optional small-value adjustment of lines 124-127. -/
def adjData (cfg : Config) (dataIn : List (List Val)) : List (List Val) :=
  if cfg.ppfix then
    dataIn.map (fun row => row.map (ppfixEntry cfg.ppfixmin cfg.ppfixmax))
  else dataIn

/-- `minvals = np.min(data, axis=1)` of line 129, computed on the adjusted
data. -/
def minvalsOf (cfg : Config) (dataIn : List (List Val)) : List Val :=
  (adjData cfg dataIn).map rowMin

/-- The resolved `thmax` (lines 130-131): the caller's value when supplied,
otherwise `np.max(np.max(data, axis=1) / minvals)`. -/
def resolvedThmax (cfg : Config) (dataIn : List (List Val)) : Val :=
  match cfg.thmax? with
  | some t => some t
  | none =>
      listNanMax
        (List.zipWith nanDiv ((adjData cfg dataIn).map rowMax) (minvalsOf cfg dataIn))

/-- `m` of line 132: the number of rows (test cases). -/
def mOf (cfg : Config) (dataIn : List (List Val)) : ℕ :=
  (adjData cfg dataIn).length

/-- `n` of line 132: the number of columns (algorithms). -/
def nOf (cfg : Config) (dataIn : List (List Val)) : ℕ :=
  ((adjData cfg dataIn).headD []).length

/-- The list of per-algorithm curves built by the loop of lines 145-170:
entry `j` is `none` when column `j` is skipped (all ratios NaN). -/
def curvesOf (cfg : Config) (dataIn : List (List Val)) :
    List (Option (List ℚ × List ℚ)) :=
  (List.range (nOf cfg dataIn)).map
    (fun j =>
      perfCurve cfg.tol (resolvedThmax cfg dataIn) (mOf cfg dataIn)
        (ratioCol (adjData cfg dataIn) (minvalsOf cfg dataIn) j))

/-- The stages executed up to and including the shape unpacking of line 132,
in statement order: set the rendering flag (116-120, only when `usetex` is
given), convert (122), small-value fix (124-127, only when `ppfix`),
row minimums (129), auto-`thmax` (130-131, only when `thmax` is `None`),
shape unpacking (132). -/
def stagesPre (cfg : Config) : List Stage :=
  (match cfg.usetex? with
    | some _ => [Stage.texSet]
    | none => []) ++
  [Stage.convert] ++
  (if cfg.ppfix then [Stage.smallFix] else []) ++
  [Stage.minvalsS] ++
  (match cfg.thmax? with
    | some _ => []
    | none => [Stage.thmaxAutoS]) ++
  [Stage.shapeS]

/-- The value the ambient `text.usetex` flag holds during the body: the
requested value when `usetex` is given (line 118), the prior value
otherwise. -/
def texApplied (cfg : Config) (tex0 : Bool) : Bool :=
  match cfg.usetex? with
  | some u => u
  | none => tex0

/-- The whole of `perfprof` (lines 115-199) as a function of the
configuration, the ambient `text.usetex` flag `tex0`, and the data matrix.
Statements are modelled in source order: the stages of `stagesPre`, then the
`linespecs` length check of line 134 - a `TypeError` when `linespecs` is
`None` (`len(None)`), a `ValueError` on length mismatch - then the
`legendnames` check of lines 138-141, then figure creation, the curve loop,
rendering, and the restoration of the rendering flag (195-199).  An
exception propagates immediately: no later stage runs and the rendering flag
keeps the value it had when the exception was raised, since the function has
no `try`/`finally` around the body. -/
def perfprof (cfg : Config) (tex0 : Bool) (dataIn : List (List Val)) : PerfResult :=
  match cfg.linespecs? with
  | none => ⟨stagesPre cfg, texApplied cfg tex0, .error .typeError⟩
  | some ls =>
      if ls.length ≠ nOf cfg dataIn then
        ⟨stagesPre cfg, texApplied cfg tex0, .error .linespecsMismatch⟩
      else
        match cfg.legendnames? with
        | some lg =>
            if lg.length ≠ nOf cfg dataIn then
              ⟨stagesPre cfg, texApplied cfg tex0, .error .legendMismatch⟩
            else
              match cfg.usetex? with
              | some _ =>
                  ⟨stagesPre cfg ++
                      [Stage.figureS, Stage.curveBuild, Stage.renderS, Stage.texRestore],
                    tex0, .ok (curvesOf cfg dataIn)⟩
              | none =>
                  ⟨stagesPre cfg ++ [Stage.figureS, Stage.curveBuild, Stage.renderS],
                    texApplied cfg tex0, .ok (curvesOf cfg dataIn)⟩
        | none =>
            match cfg.usetex? with
            | some _ =>
                ⟨stagesPre cfg ++
                    [Stage.figureS, Stage.curveBuild, Stage.renderS, Stage.texRestore],
                  tex0, .ok (curvesOf cfg dataIn)⟩
            | none =>
                ⟨stagesPre cfg ++ [Stage.figureS, Stage.curveBuild, Stage.renderS],
                  texApplied cfg tex0, .ok (curvesOf cfg dataIn)⟩

/-- Duplicate every element of a list in place: `[a, b] ↦ [a, a, b, b]`. -/
def dbl : List ℚ → List ℚ
  | [] => []
  | a :: l => a :: a :: dbl l

/-- The staircase x-values as the spec describes them: the first threshold
followed by every later threshold twice (one point ending the previous flat
segment, one starting the jump). -/
def specStairX : List ℚ → List ℚ
  | [] => []
  | t :: ts => t :: dbl ts

/-- The staircase y-values as the spec describes them: every probability but
the last twice (held flat until the next jump), then the last one once. -/
def specStairY : List ℚ → List ℚ
  | [] => []
  | [p] => [p]
  | p :: q :: ps => p :: p :: specStairY (q :: ps)

/-- The per-case minimum as the spec describes it ("minimum finite value
across row i", missing entries excluded from the min): the minimum of the
non-NaN entries, `none` only when every entry is missing. -/
def specRowMin (row : List Val) : Val :=
  (row.filterMap id).min?

/-- The NaN-free ratio column `col` of lines 146-147 for algorithm `j`, on
the adjusted data. -/
def colOf (cfg : Config) (data : List (List Val)) (j : ℕ) : List ℚ :=
  (ratioCol (adjData cfg data) (minvalsOf cfg data) j).filterMap id

/-- `theta` of line 152 for algorithm `j`. -/
def thetaOf (cfg : Config) (data : List (List Val)) (j : ℕ) : List ℚ :=
  npUnique (colOf cfg data j)

/-- `prob` of lines 154-157 for algorithm `j`. -/
def probOf (cfg : Config) (data : List (List Val)) (j : ℕ) : List ℚ :=
  probList (colOf cfg data j) (mOf cfg data)

/-- Entrywise scaling `c * data` of the measurement matrix (NaN entries stay
NaN, as `c * nan = nan`). -/
def scaleData (c : ℚ) (data : List (List Val)) : List (List Val) :=
  data.map (fun row => row.map (Option.map (fun v => c * v)))

theorem dbl_append (u v : List ℚ) : dbl (u ++ v) = dbl u ++ dbl v := by
  induction u with
  | nil => rfl
  | cons a u ih => simp [dbl, ih]

theorem mem_dbl {a : ℚ} {l : List ℚ} : a ∈ dbl l ↔ a ∈ l := by
  induction l with
  | nil => simp [dbl]
  | cons b l ih => simp [dbl, ih]

theorem kIdx_succ (r : ℕ) : kIdx (r + 1) = kIdx r ++ [r, r] := by
  unfold kIdx
  have h : 2 * (r + 1) = 2 * r + 1 + 1 := by ring
  rw [h, List.range_succ, List.range_succ, List.map_append, List.map_append]
  have h1 : 2 * r / 2 = r := by omega
  have h2 : (2 * r + 1) / 2 = r := by omega
  simp [h1, h2]

theorem mem_kIdx {i r : ℕ} (h : i ∈ kIdx r) : i < r := by
  unfold kIdx at h
  simp only [List.mem_map, List.mem_range] at h
  obtain ⟨j, hj, rfl⟩ := h
  omega

theorem kIdx_map_getD (l : List ℚ) :
    (kIdx l.length).map (fun i => l.getD i 0) = dbl l := by
  induction l using List.reverseRecOn with
  | nil => rfl
  | append_singleton l a ih =>
      rw [List.length_append, List.length_singleton, kIdx_succ, List.map_append]
      have h1 : (kIdx l.length).map (fun i => (l ++ [a]).getD i 0) =
          (kIdx l.length).map (fun i => l.getD i 0) := by
        refine List.map_congr_left (fun i hi => ?_)
        exact List.getD_append l [a] 0 i (mem_kIdx hi)
      have h2 : (l ++ [a]).getD l.length 0 = a := by
        rw [List.getD_append_right l [a] 0 l.length le_rfl]
        simp
      rw [h1, ih, dbl_append]
      simp [dbl, h2]

theorem stairX_eq_dbl (theta : List ℚ) : stairX theta = (dbl theta).tail := by
  unfold stairX
  rw [← kIdx_map_getD, List.map_tail]

theorem stairY_eq_dbl (prob : List ℚ) : stairY prob = (dbl prob).dropLast := by
  unfold stairY
  rw [← kIdx_map_getD, List.map_dropLast]

theorem specStairX_eq_dbl (theta : List ℚ) : specStairX theta = (dbl theta).tail := by
  cases theta with
  | nil => rfl
  | cons t ts => rfl

theorem specStairY_eq_dbl (prob : List ℚ) : specStairY prob = (dbl prob).dropLast := by
  induction prob with
  | nil => rfl
  | cons p l ih =>
      cases l with
      | nil => rfl
      | cons q l' =>
          simp only [specStairY, dbl, ih]
          simp [List.dropLast_cons_of_ne_nil, dbl]

theorem stairX_spec (theta : List ℚ) : stairX theta = specStairX theta := by
  rw [stairX_eq_dbl, specStairX_eq_dbl]

theorem stairY_spec (prob : List ℚ) : stairY prob = specStairY prob := by
  rw [stairY_eq_dbl, specStairY_eq_dbl]

theorem nanMin_none_left (v : Val) : nanMin none v = none := by
  cases v <;> rfl

theorem nanMax_none_left (v : Val) : nanMax none v = none := by
  cases v <;> rfl

theorem foldl_nanMin_none (xs : List Val) : xs.foldl nanMin none = none := by
  induction xs with
  | nil => rfl
  | cons v xs ih => simp [List.foldl_cons, nanMin_none_left, ih]

theorem foldl_nanMin_some (xs : List Val) (hall : ∀ v ∈ xs, ∃ q, v = some q) (a : ℚ) :
    ∃ mn, xs.foldl nanMin (some a) = some mn ∧ mn ≤ a ∧
      (∀ q, some q ∈ xs → mn ≤ q) ∧ (mn = a ∨ some mn ∈ xs) := by
  induction xs generalizing a with
  | nil => exact ⟨a, rfl, le_rfl, by simp, Or.inl rfl⟩
  | cons v xs ih =>
      obtain ⟨b, rfl⟩ := hall v (by simp)
      obtain ⟨mn, h1, h2, h3, h4⟩ := ih (fun w hw => hall w (by simp [hw])) (min a b)
      refine ⟨mn, by simpa [nanMin] using h1, le_trans h2 (min_le_left a b), ?_, ?_⟩
      · intro q hq
        rcases List.mem_cons.mp hq with h | h
        · exact le_trans h2 (by simp [Option.some_inj.mp h.symm, min_le_right a b])
        · exact h3 q h
      · rcases h4 with h | h
        · rcases min_choice a b with hm | hm
          · exact Or.inl (h.trans hm)
          · exact Or.inr (by simp [h.trans hm])
        · exact Or.inr (by simp [h])

theorem foldl_nanMax_some (xs : List Val) (hall : ∀ v ∈ xs, ∃ q, v = some q) (a : ℚ) :
    ∃ mx, xs.foldl nanMax (some a) = some mx ∧ a ≤ mx ∧
      (∀ q, some q ∈ xs → q ≤ mx) := by
  induction xs generalizing a with
  | nil => exact ⟨a, rfl, le_rfl, by simp⟩
  | cons v xs ih =>
      obtain ⟨b, rfl⟩ := hall v (by simp)
      obtain ⟨mx, h1, h2, h3⟩ := ih (fun w hw => hall w (by simp [hw])) (max a b)
      refine ⟨mx, by simpa [nanMax] using h1, le_trans (le_max_left a b) h2, ?_⟩
      intro q hq
      rcases List.mem_cons.mp hq with h | h
      · exact le_trans (by simp [Option.some_inj.mp h.symm, le_max_right a b]) h2
      · exact h3 q h

theorem rowMin_spec (row : List Val) (hne : row ≠ [])
    (hall : ∀ v ∈ row, ∃ q, v = some q) :
    ∃ mn, rowMin row = some mn ∧ (∀ q, some q ∈ row → mn ≤ q) ∧ some mn ∈ row := by
  match row, hne with
  | v :: xs, _ =>
      obtain ⟨a, rfl⟩ := hall v (by simp)
      obtain ⟨mn, h1, h2, h3, h4⟩ :=
        foldl_nanMin_some xs (fun w hw => hall w (by simp [hw])) a
      refine ⟨mn, h1, ?_, ?_⟩
      · intro q hq
        rcases List.mem_cons.mp hq with h | h
        · exact le_trans h2 (le_of_eq (Option.some_inj.mp h.symm))
        · exact h3 q h
      · rcases h4 with h | h
        · simp [h]
        · simp [h]

theorem rowMax_spec (row : List Val) (hne : row ≠ [])
    (hall : ∀ v ∈ row, ∃ q, v = some q) :
    ∃ mx, rowMax row = some mx ∧ (∀ q, some q ∈ row → q ≤ mx) := by
  match row, hne with
  | v :: xs, _ =>
      obtain ⟨a, rfl⟩ := hall v (by simp)
      obtain ⟨mx, h1, h2, h3⟩ :=
        foldl_nanMax_some xs (fun w hw => hall w (by simp [hw])) a
      refine ⟨mx, h1, ?_⟩
      intro q hq
      rcases List.mem_cons.mp hq with h | h
      · exact le_trans (le_of_eq (Option.some_inj.mp h)) h2
      · exact h3 q h

theorem listNanMax_spec (l : List Val) (hne : l ≠ [])
    (hall : ∀ v ∈ l, ∃ q, v = some q) :
    ∃ mx, listNanMax l = some mx ∧ (∀ q, some q ∈ l → q ≤ mx) := by
  match l, hne with
  | v :: xs, _ =>
      obtain ⟨a, rfl⟩ := hall v (by simp)
      obtain ⟨mx, h1, h2, h3⟩ :=
        foldl_nanMax_some xs (fun w hw => hall w (by simp [hw])) a
      refine ⟨mx, h1, ?_⟩
      intro q hq
      rcases List.mem_cons.mp hq with h | h
      · exact le_trans (le_of_eq (Option.some_inj.mp h)) h2
      · exact h3 q h

theorem rowMin_of_none_mem (row : List Val) (h : none ∈ row) : rowMin row = none := by
  match row with
  | v :: xs =>
      rcases List.mem_cons.mp h with h0 | h0
      · simp only [rowMin, ← h0]
        exact foldl_nanMin_none xs
      · simp only [rowMin]
        clear h
        induction xs generalizing v with
        | nil => cases h0
        | cons w xs ih =>
            rcases List.mem_cons.mp h0 with h1 | h1
            · subst h1
              cases v <;> simp [List.foldl_cons, nanMin, foldl_nanMin_none]
            · exact ih (nanMin v w) h1

theorem mem_npUnique {a : ℚ} {l : List ℚ} : a ∈ npUnique l ↔ a ∈ l := by
  simp [npUnique, List.mem_insertionSort, List.mem_dedup]

theorem npUnique_sorted (l : List ℚ) : List.Sorted (· ≤ ·) (npUnique l) :=
  List.sorted_insertionSort (· ≤ ·) l.dedup

theorem npUnique_ne_nil {l : List ℚ} (h : l ≠ []) : npUnique l ≠ [] := by
  match l, h with
  | a :: l, _ =>
      intro hcon
      have : a ∈ npUnique (a :: l) := mem_npUnique.mpr (by simp)
      simp [hcon] at this

theorem probList_length (col : List ℚ) (m : ℕ) :
    (probList col m).length = (npUnique col).length := by
  simp [probList]

theorem mem_probList {p : ℚ} {col : List ℚ} {m : ℕ} (h : p ∈ probList col m)
    (hlen : col.length ≤ m) : 0 ≤ p ∧ p ≤ 1 := by
  simp only [probList, List.mem_map] at h
  obtain ⟨t, _, rfl⟩ := h
  constructor
  · positivity
  · rcases Nat.eq_zero_or_pos m with hm | hm
    · simp [hm]
    · rw [div_le_one (by exact_mod_cast hm)]
      exact_mod_cast le_trans (List.countP_le_length _) hlen

theorem probList_chain' (col : List ℚ) (m : ℕ) :
    List.Chain' (· ≤ ·) (probList col m) := by
  rw [List.chain'_iff_pairwise]
  unfold probList
  rw [List.pairwise_map]
  refine (npUnique_sorted col).imp_of_mem ?_
  intro a b ha hb hab
  have hcount : col.countP (fun c => decide (c ≤ a)) ≤
      col.countP (fun c => decide (c ≤ b)) := by
    refine List.countP_mono_left ?_
    intro x _ hx
    simp only [decide_eq_true_eq] at hx ⊢
    exact le_trans hx hab
  exact div_le_div_of_nonneg_right (by exact_mod_cast hcount) (by positivity)

theorem filterMap_id_cons_some (a : ℚ) (l : List Val) :
    List.filterMap id (some a :: l) = a :: List.filterMap id l := rfl

theorem filterMap_id_cons_none (l : List Val) :
    List.filterMap id (none :: l) = List.filterMap id l := rfl

theorem perfCurve_eq_some (tol : ℚ) (thmaxV : Val) (m : ℕ) (colRaw : List Val)
    (h : colRaw.filterMap id ≠ []) :
    perfCurve tol thmaxV m colRaw =
      some (addEnds tol thmaxV (stairX (npUnique (colRaw.filterMap id)))
        (stairY (probList (colRaw.filterMap id) m))) := by
  unfold perfCurve
  simp only [List.length_eq_zero]
  rw [if_neg h]

theorem perfCurve_eq_none (tol : ℚ) (thmaxV : Val) (m : ℕ) (colRaw : List Val)
    (h : colRaw.filterMap id = []) :
    perfCurve tol thmaxV m colRaw = none := by
  unfold perfCurve
  simp [h]

theorem getLastD_mem {l : List ℚ} (h : l ≠ []) (d : ℚ) : l.getLastD d ∈ l := by
  rw [List.getLastD_eq_getLast?, List.getLast?_eq_getLast l h]
  exact List.getLast_mem h

theorem headD_mem {l : List ℚ} (h : l ≠ []) (d : ℚ) : l.headD d ∈ l := by
  match l, h with
  | a :: t, _ => simp

theorem chain'_dbl {l : List ℚ} (h : List.Chain' (· ≤ ·) l) :
    List.Chain' (· ≤ ·) (dbl l) := by
  induction l with
  | nil => simp [dbl]
  | cons a l ih =>
      have htail : List.Chain' (· ≤ ·) l := h.tail
      rcases l with _ | ⟨b, t⟩
      · simp [dbl]
      · have hab : a ≤ b := (List.chain'_cons.mp h).1
        have := ih htail
        simp only [dbl] at this ⊢
        exact List.chain'_cons.mpr ⟨le_rfl, List.chain'_cons.mpr ⟨hab, this⟩⟩

theorem dbl_ne_nil {l : List ℚ} (h : l ≠ []) : dbl l ≠ [] := by
  match l, h with
  | a :: t, _ => simp [dbl]


/-- The left extension keeps the lists non-decreasing and inside the bounds,
provided every incoming x-value is at least 1 and every y-value at least 0. -/
theorem leftExt_props (tol : ℚ) (x y : List ℚ)
    (hxc : List.Chain' (· ≤ ·) x) (hxn : x ≠ [])
    (hx1 : ∀ t ∈ x, 1 ≤ t)
    (hyc : List.Chain' (· ≤ ·) y) (hyn : y ≠ [])
    (hy0 : ∀ p ∈ y, 0 ≤ p) :
    List.Chain' (· ≤ ·) (leftExt tol (x, y)).1 ∧
    List.Chain' (· ≤ ·) (leftExt tol (x, y)).2 ∧
    (leftExt tol (x, y)).1 ≠ [] ∧ (leftExt tol (x, y)).2 ≠ [] ∧
    (∀ t, t ∈ (leftExt tol (x, y)).1 → t ∈ x ∨ t = 1) ∧
    (∀ p, p ∈ (leftExt tol (x, y)).2 → p ∈ y ∨ p = 0) := by
  unfold leftExt
  by_cases hpre : 1 + tol ≤ (x, y).1.headD 0
  · simp only [if_pos hpre]
    refine ⟨?_, ?_, by simp, by simp, ?_, ?_⟩
    · rw [List.chain'_cons]
      refine ⟨hx1 _ (headD_mem hxn 0), ?_⟩
      rw [List.chain'_cons']
      refine ⟨?_, hxc⟩
      intro z hz
      match x, hxn with
      | a :: t, _ =>
          simp only [List.headD_cons, List.head?_cons, Option.mem_def,
            Option.some_inj] at hz ⊢
          exact le_of_eq hz
    · rw [List.chain'_cons]
      refine ⟨le_rfl, ?_⟩
      rw [List.chain'_cons']
      refine ⟨?_, hyc⟩
      intro z hz
      refine hy0 z ?_
      match y, hyn with
      | a :: t, _ =>
          simp only [List.head?_cons, Option.mem_def, Option.some_inj] at hz
          simp [hz]
    · intro t ht
      rcases List.mem_cons.mp ht with h | h
      · exact Or.inr h
      · rcases List.mem_cons.mp h with h' | h'
        · exact Or.inl (h' ▸ headD_mem hxn 0)
        · exact Or.inl h'
    · intro p hp
      rcases List.mem_cons.mp hp with h | h
      · exact Or.inr h
      · rcases List.mem_cons.mp h with h' | h'
        · exact Or.inr h'
        · exact Or.inl h'
  · simp only [if_neg hpre]
    exact ⟨hxc, hyc, hxn, hyn, fun t ht => Or.inl ht, fun p hp => Or.inl hp⟩

/-- The right extension keeps the lists non-decreasing and inside the bounds,
provided every incoming x-value is at most `tm` and every y-value at
most 1. -/
theorem rightExt_props (tol tm : ℚ) (x y : List ℚ)
    (hxc : List.Chain' (· ≤ ·) x)
    (hxtm : ∀ t ∈ x, t ≤ tm)
    (hyc : List.Chain' (· ≤ ·) y) (hyn : y ≠ []) :
    List.Chain' (· ≤ ·) (rightExt tol tm (x, y)).1 ∧
    List.Chain' (· ≤ ·) (rightExt tol tm (x, y)).2 ∧
    (∀ t, t ∈ (rightExt tol tm (x, y)).1 → t ∈ x ∨ t = tm) ∧
    (∀ p, p ∈ (rightExt tol tm (x, y)).2 → p ∈ y) := by
  unfold rightExt
  by_cases hlt : (x, y).1.getLastD 0 < tm - tol
  · simp only [if_pos hlt]
    refine ⟨?_, ?_, ?_, ?_⟩
    · rw [List.chain'_append]
      refine ⟨hxc, by simp, ?_⟩
      intro a ha b hb'
      simp only [List.head?_cons, Option.mem_def, Option.some_inj] at hb'
      subst hb'
      exact hxtm a (List.mem_of_mem_getLast? ha)
    · rw [List.chain'_append]
      refine ⟨hyc, by simp, ?_⟩
      intro a ha b hb'
      simp only [List.head?_cons, Option.mem_def, Option.some_inj] at hb'
      subst hb'
      rw [List.getLastD_eq_getLast?, List.getLast?_eq_getLast y hyn]
      simp only [Option.getD_some]
      rw [List.getLast?_eq_getLast y hyn] at ha
      simp only [Option.mem_def, Option.some_inj] at ha
      exact le_of_eq ha.symm
    · intro t ht
      rcases List.mem_append.mp ht with h | h
      · exact Or.inl h
      · exact Or.inr (List.mem_singleton.mp h)
    · intro p hp
      rcases List.mem_append.mp hp with h | h
      · exact h
      · rw [List.mem_singleton.mp h]
        exact getLastD_mem hyn 0
  · simp only [if_neg hlt]
    exact ⟨hxc, hyc, fun t ht => Or.inl ht, fun p hp => hp⟩

theorem stairX_ne_nil {theta : List ℚ} (h : theta ≠ []) : stairX theta ≠ [] := by
  rw [stairX_spec]
  match theta, h with
  | t :: ts, _ => simp [specStairX]

theorem stairY_ne_nil {prob : List ℚ} (h : prob ≠ []) : stairY prob ≠ [] := by
  rw [stairY_spec]
  match prob, h with
  | p :: ps, _ =>
      cases ps <;> simp [specStairY]

theorem stairX_chain' {theta : List ℚ} (h : List.Sorted (· ≤ ·) theta) :
    List.Chain' (· ≤ ·) (stairX theta) := by
  rw [stairX_eq_dbl]
  exact (chain'_dbl (List.chain'_iff_pairwise.mpr h)).tail

theorem stairY_chain' {prob : List ℚ} (h : List.Chain' (· ≤ ·) prob) :
    List.Chain' (· ≤ ·) (stairY prob) := by
  rw [stairY_eq_dbl]
  exact (chain'_dbl h).init

theorem mem_stairX {t : ℚ} {theta : List ℚ} (h : t ∈ stairX theta) : t ∈ theta := by
  rw [stairX_eq_dbl] at h
  exact mem_dbl.mp (List.tail_subset _ h)

theorem mem_stairY {p : ℚ} {prob : List ℚ} (h : p ∈ stairY prob) : p ∈ prob := by
  rw [stairY_eq_dbl] at h
  exact mem_dbl.mp (List.dropLast_subset _ h)

/-- Any curve the loop body produces with a finite resolved `thmax` and
in-bounds ratio values has non-decreasing x and y sequences, x-values in
`[1, tm]` and y-values in `[0, 1]`. -/
theorem perfCurve_props (tol tm : ℚ) (m : ℕ) (colRaw : List Val)
    (hbounds : ∀ c ∈ colRaw.filterMap id, 1 ≤ c ∧ c ≤ tm)
    (hlen : (colRaw.filterMap id).length ≤ m) :
    ∀ xs ys, perfCurve tol (some tm) m colRaw = some (xs, ys) →
      List.Chain' (· ≤ ·) xs ∧ List.Chain' (· ≤ ·) ys ∧
      (∀ x ∈ xs, 1 ≤ x ∧ x ≤ tm) ∧ (∀ y ∈ ys, 0 ≤ y ∧ y ≤ 1) := by
  intro xs ys hcurve
  by_cases hcol : colRaw.filterMap id = []
  · rw [perfCurve_eq_none tol (some tm) m colRaw hcol] at hcurve
    cases hcurve
  · rw [perfCurve_eq_some tol (some tm) m colRaw hcol] at hcurve
    set col := colRaw.filterMap id with hcoldef
    set theta := npUnique col with hthdef
    set prob := probList col m with hprdef
    have hthne : theta ≠ [] := npUnique_ne_nil hcol
    have hthsort : List.Sorted (· ≤ ·) theta := npUnique_sorted col
    have hthb : ∀ t ∈ theta, 1 ≤ t ∧ t ≤ tm := fun t ht =>
      hbounds t (mem_npUnique.mp ht)
    have htm1 : 1 ≤ tm := by
      match theta, hthne with
      | t :: ts, _ =>
          have := hthb t (by simp)
          exact le_trans this.1 this.2
    have hprne : prob ≠ [] := by
      intro hcon
      have h1 : (probList col m).length = theta.length := probList_length col m
      rw [← hprdef, hcon] at h1
      exact hthne (List.length_eq_zero.mp h1.symm)
    have hprc : List.Chain' (· ≤ ·) prob := probList_chain' col m
    have hprb : ∀ p ∈ prob, 0 ≤ p ∧ p ≤ 1 := fun p hp => mem_probList hp hlen
    have hx0c := stairX_chain' hthsort
    have hx0n := stairX_ne_nil hthne
    have hy0c := stairY_chain' hprc
    have hy0n := stairY_ne_nil hprne
    obtain ⟨hLxc, hLyc, hLxn, hLyn, hLxm, hLym⟩ :=
      leftExt_props tol (stairX theta) (stairY prob) hx0c hx0n
        (fun t ht => (hthb t (mem_stairX ht)).1)
        hy0c hy0n (fun p hp => (hprb p (mem_stairY hp)).1)
    obtain ⟨hRxc, hRyc, hRxm, hRym⟩ :=
      rightExt_props tol tm (leftExt tol (stairX theta, stairY prob)).1
        (leftExt tol (stairX theta, stairY prob)).2 hLxc
        (fun t ht => by
          rcases hLxm t ht with h | h
          · exact (hthb t (mem_stairX h)).2
          · rw [h]; exact htm1)
        hLyc hLyn
    have haddeq : addEnds tol (some tm) (stairX theta) (stairY prob) =
        rightExt tol tm (leftExt tol (stairX theta, stairY prob)) := rfl
    rw [haddeq] at hcurve
    have hpair : ((leftExt tol (stairX theta, stairY prob)).1,
        (leftExt tol (stairX theta, stairY prob)).2) =
        leftExt tol (stairX theta, stairY prob) := rfl
    rw [hpair] at hRxc hRyc hRxm hRym
    have heq : rightExt tol tm (leftExt tol (stairX theta, stairY prob)) = (xs, ys) :=
      Option.some_inj.mp hcurve
    have hxs : xs = (rightExt tol tm (leftExt tol (stairX theta, stairY prob))).1 := by
      rw [heq]
    have hys : ys = (rightExt tol tm (leftExt tol (stairX theta, stairY prob))).2 := by
      rw [heq]
    subst hxs
    subst hys
    refine ⟨hRxc, hRyc, ?_, ?_⟩
    · intro t ht
      rcases hRxm t ht with h | h
      · rcases hLxm t h with h' | h'
        · exact hthb t (mem_stairX h')
        · rw [h']; exact ⟨le_rfl, htm1⟩
      · rw [h]; exact ⟨htm1, le_rfl⟩
    · intro p hp
      rcases hLym p (hRym p hp) with h | h
      · exact hprb p (mem_stairY h)
      · rw [h]; norm_num

theorem ratioCol_eq_map (data : List (List Val)) (j : ℕ) :
    ratioCol data (data.map rowMin) j =
      data.map (fun row => nanDiv (row.getD j none) (rowMin row)) := by
  unfold ratioCol
  rw [List.zipWith_map_right, List.zipWith_same]

theorem thmaxList_eq_map (data : List (List Val)) :
    List.zipWith nanDiv (data.map rowMax) (data.map rowMin) =
      data.map (fun row => nanDiv (rowMax row) (rowMin row)) := by
  rw [List.zipWith_map_right, List.zipWith_map_left, List.zipWith_same]

/-- Per-row summary for an all-finite positive row: the row minimum and
maximum exist, the minimum is positive, and both bound every entry. -/
theorem row_summary (row : List Val) (hne : row ≠ [])
    (hpos : ∀ v ∈ row, ∃ q, v = some q ∧ 0 < q) :
    ∃ mn mx, rowMin row = some mn ∧ rowMax row = some mx ∧ 0 < mn ∧ mn ≤ mx ∧
      ∀ q, some q ∈ row → mn ≤ q ∧ q ≤ mx := by
  have hall : ∀ v ∈ row, ∃ q, v = some q := fun v hv =>
    let ⟨q, hq, _⟩ := hpos v hv
    ⟨q, hq⟩
  obtain ⟨mn, hmn, hmnle, hmnmem⟩ := rowMin_spec row hne hall
  obtain ⟨mx, hmx, hmxge⟩ := rowMax_spec row hne hall
  obtain ⟨q0, hq0, hq0pos⟩ := hpos (some mn) hmnmem
  have hmnpos : 0 < mn := by
    have : mn = q0 := Option.some_inj.mp hq0
    rw [this]; exact hq0pos
  exact ⟨mn, mx, hmn, hmx, hmnpos, hmxge mn hmnmem,
    fun q hq => ⟨hmnle q hq, hmxge q hq⟩⟩

theorem nanDiv_none_left (v : Val) : nanDiv none v = none := by
  cases v <;> rfl

/-- Data-level bounds for an all-finite positive matrix: the auto-computed
`thmax` is a finite value `tm ≥ 1` and every (non-NaN) performance ratio of
every column lies in `[1, tm]`. -/
theorem data_bounds (data : List (List Val)) (hne : data ≠ [])
    (hrow : ∀ row ∈ data, row ≠ [])
    (hpos : ∀ row ∈ data, ∀ v ∈ row, ∃ q, v = some q ∧ 0 < q) :
    ∃ tm, listNanMax (List.zipWith nanDiv (data.map rowMax) (data.map rowMin)) =
        some tm ∧ 1 ≤ tm ∧
      ∀ j, ∀ c ∈ (ratioCol data (data.map rowMin) j).filterMap id,
        1 ≤ c ∧ c ≤ tm := by
  rw [thmaxList_eq_map]
  have htne : data.map (fun row => nanDiv (rowMax row) (rowMin row)) ≠ [] := by
    simpa using hne
  have hall : ∀ v ∈ data.map (fun row => nanDiv (rowMax row) (rowMin row)),
      ∃ q, v = some q := by
    intro v hv
    rw [List.mem_map] at hv
    obtain ⟨row, hrowmem, rfl⟩ := hv
    obtain ⟨mn, mx, hmn, hmx, _, _, _⟩ :=
      row_summary row (hrow row hrowmem) (hpos row hrowmem)
    exact ⟨mx / mn, by rw [hmn, hmx]; rfl⟩
  obtain ⟨tm, htm, htmge⟩ := listNanMax_spec _ htne hall
  have hrowtm : ∀ row ∈ data, ∀ mn mx : ℚ, rowMin row = some mn →
      rowMax row = some mx → mx / mn ≤ tm := by
    intro row hrowmem mn mx hmn hmx
    refine htmge _ ?_
    rw [List.mem_map]
    exact ⟨row, hrowmem, by rw [hmn, hmx]; rfl⟩
  refine ⟨tm, htm, ?_, ?_⟩
  · match data, hne with
    | row0 :: rest, _ =>
        obtain ⟨mn, mx, hmn, hmx, hmnpos, hmnmx, _⟩ :=
          row_summary row0 (hrow row0 (by simp)) (hpos row0 (by simp))
        have h1 : 1 ≤ mx / mn := (one_le_div hmnpos).mpr hmnmx
        exact le_trans h1 (hrowtm row0 (by simp) mn mx hmn hmx)
  · intro j c hc
    rw [ratioCol_eq_map] at hc
    rw [List.filterMap_map] at hc
    rw [List.mem_filterMap] at hc
    obtain ⟨row, hrowmem, hrc⟩ := hc
    obtain ⟨mn, mx, hmn, hmx, hmnpos, hmnmx, hbound⟩ :=
      row_summary row (hrow row hrowmem) (hpos row hrowmem)
    simp only [Function.comp_apply] at hrc
    by_cases hj : j < row.length
    · rw [List.getD_eq_getElem row none hj] at hrc
      obtain ⟨q, hqeq, hqpos⟩ := hpos row hrowmem _ (List.getElem_mem hj)
      rw [hqeq, hmn] at hrc
      have hc' : c = q / mn := by
        simpa [nanDiv] using hrc.symm
      have hqmem : some q ∈ row := hqeq ▸ List.getElem_mem hj
      obtain ⟨hq1, hq2⟩ := hbound q hqmem
      subst hc'
      constructor
      · exact (one_le_div hmnpos).mpr hq1
      · exact le_trans
          (div_le_div_of_nonneg_right hq2 (le_of_lt hmnpos))
          (hrowtm row hrowmem mn mx hmn hmx)
    · rw [List.getD_eq_default row none (Nat.le_of_not_lt hj)] at hrc
      rw [nanDiv_none_left] at hrc
      cases hrc

theorem perfprof_linespecs_none (cfg : Config) (tex0 : Bool)
    (data : List (List Val)) (h1 : cfg.linespecs? = none) :
    perfprof cfg tex0 data =
      ⟨stagesPre cfg, texApplied cfg tex0, .error .typeError⟩ := by
  unfold perfprof
  rw [h1]

theorem perfprof_linespecs_mismatch (cfg : Config) (tex0 : Bool)
    (data : List (List Val)) (ls : List String)
    (h1 : cfg.linespecs? = some ls) (h2 : ls.length ≠ nOf cfg data) :
    perfprof cfg tex0 data =
      ⟨stagesPre cfg, texApplied cfg tex0, .error .linespecsMismatch⟩ := by
  unfold perfprof
  rw [h1]
  change (if ls.length ≠ nOf cfg data then _ else _) = _
  rw [if_pos h2]

theorem perfprof_legend_mismatch (cfg : Config) (tex0 : Bool)
    (data : List (List Val)) (ls lg : List String)
    (h1 : cfg.linespecs? = some ls) (h2 : ls.length = nOf cfg data)
    (h3 : cfg.legendnames? = some lg) (h4 : lg.length ≠ nOf cfg data) :
    perfprof cfg tex0 data =
      ⟨stagesPre cfg, texApplied cfg tex0, .error .legendMismatch⟩ := by
  unfold perfprof
  rw [h1]
  change (if ls.length ≠ nOf cfg data then _ else _ : PerfResult) = _
  rw [if_neg (not_not_intro h2), h3]
  change (if lg.length ≠ nOf cfg data then _ else _ : PerfResult) = _
  rw [if_pos h4]

theorem perfprof_ok_of (cfg : Config) (tex0 : Bool) (data : List (List Val))
    (ls : List String) (h1 : cfg.linespecs? = some ls)
    (h2 : ls.length = nOf cfg data)
    (h3 : ∀ lg, cfg.legendnames? = some lg → lg.length = nOf cfg data) :
    perfprof cfg tex0 data =
      ⟨stagesPre cfg ++ [Stage.figureS, Stage.curveBuild, Stage.renderS] ++
          (match cfg.usetex? with
            | some _ => [Stage.texRestore]
            | none => []),
        tex0, .ok (curvesOf cfg data)⟩ := by
  unfold perfprof
  rw [h1]
  change (if ls.length ≠ nOf cfg data then _ else _ : PerfResult) = _
  rw [if_neg (not_not_intro h2)]
  cases h4 : cfg.legendnames? with
  | none =>
      cases h5 : cfg.usetex? with
      | none => simp [texApplied, h5]
      | some u => simp [h5]
  | some lg =>
      change (if lg.length ≠ nOf cfg data then _ else _ : PerfResult) = _
      rw [if_neg (not_not_intro (h3 lg h4))]
      cases h5 : cfg.usetex? with
      | none => simp [texApplied, h5]
      | some u => simp [h5]

theorem perfprof_ok_inv (cfg : Config) (tex0 : Bool) (data : List (List Val))
    (curves : List (Option (List ℚ × List ℚ)))
    (h : (perfprof cfg tex0 data).result = .ok curves) :
    curves = curvesOf cfg data ∧ (perfprof cfg tex0 data).texFinal = tex0 := by
  cases h1 : cfg.linespecs? with
  | none =>
      rw [perfprof_linespecs_none cfg tex0 data h1] at h
      exact absurd h (by simp)
  | some ls =>
      by_cases h2 : ls.length = nOf cfg data
      · by_cases h3 : ∀ lg, cfg.legendnames? = some lg → lg.length = nOf cfg data
        · rw [perfprof_ok_of cfg tex0 data ls h1 h2 h3] at h ⊢
          exact ⟨(Except.ok.inj h).symm, rfl⟩
        · push_neg at h3
          obtain ⟨lg, hlg, hlen⟩ := h3
          rw [perfprof_legend_mismatch cfg tex0 data ls lg h1 h2 hlg hlen] at h
          exact absurd h (by simp)
      · rw [perfprof_linespecs_mismatch cfg tex0 data ls h1 h2] at h
        exact absurd h (by simp)

theorem perfprof_error_inv (cfg : Config) (tex0 : Bool) (data : List (List Val))
    (e : PerfError) (h : (perfprof cfg tex0 data).result = .error e) :
    (perfprof cfg tex0 data).texFinal = texApplied cfg tex0 ∧
    (perfprof cfg tex0 data).stages = stagesPre cfg := by
  cases h1 : cfg.linespecs? with
  | none =>
      rw [perfprof_linespecs_none cfg tex0 data h1]
      exact ⟨rfl, rfl⟩
  | some ls =>
      by_cases h2 : ls.length = nOf cfg data
      · by_cases h3 : ∀ lg, cfg.legendnames? = some lg → lg.length = nOf cfg data
        · rw [perfprof_ok_of cfg tex0 data ls h1 h2 h3] at h
          exact absurd h (by simp)
        · push_neg at h3
          obtain ⟨lg, hlg, hlen⟩ := h3
          rw [perfprof_legend_mismatch cfg tex0 data ls lg h1 h2 hlg hlen]
          exact ⟨rfl, rfl⟩
      · rw [perfprof_linespecs_mismatch cfg tex0 data ls h1 h2]
        exact ⟨rfl, rfl⟩

/-- C6: with `ppfix` enabled, an entry below `fix_max` is remapped to
`fix_min + value * (fix_max - fix_min) / fix_max`, an entry at least
`fix_max` is left unchanged, and an entry equal to 0 is mapped to exactly
`fix_min` (for a positive `fix_max`, as the defaults are). -/
theorem c6_ppfix_remap (fmin fmax v : ℚ) (hmax : 0 < fmax) :
    (fmax ≤ v → ppfixEntry fmin fmax (some v) = some v) ∧
    (v < fmax → ppfixEntry fmin fmax (some v) =
      some (fmin + v * (fmax - fmin) / fmax)) ∧
    ppfixEntry fmin fmax (some 0) = some fmin := by
  refine ⟨?_, ?_, ?_⟩
  · intro h
    simp only [ppfixEntry]
    rw [if_pos h, if_neg (not_lt.mpr h)]
    norm_num
  · intro h
    simp only [ppfixEntry]
    rw [if_neg (not_le.mpr h), if_pos h]
    norm_num
  · simp only [ppfixEntry]
    rw [if_neg (not_le.mpr hmax), if_pos hmax]
    norm_num

theorem c6_ppfix_remap_witness :
    ((0 : ℚ) < 2 ∧ (2 : ℚ) ≤ 3 ∧ (1 : ℚ) < 2) ∧
    ppfixEntry 1 2 (some 3) = some 3 ∧
    ppfixEntry 1 2 (some 1) = some (1 + 1 * (2 - 1) / 2) ∧
    ppfixEntry 1 2 (some 0) = some 1 :=
  ⟨⟨by norm_num, by norm_num, by norm_num⟩,
    (c6_ppfix_remap 1 2 3 (by norm_num)).1 (by norm_num),
    (c6_ppfix_remap 1 2 1 (by norm_num)).2.1 (by norm_num),
    (c6_ppfix_remap 1 2 0 (by norm_num)).2.2⟩

/-- C3 fails on the code: the per-case minimum is computed with `np.min`
(line 129), which propagates NaN, not `np.nanmin`.  On the row
`[1, NaN]` the code's `minvals` entry is NaN while the claim says it is the
minimum over the finite entries, i.e. 1. -/
theorem c3_counterexample :
    minvalsOf ⟨some ["a", "b"], none, 1/10, none, false, 0, 0, none⟩
        [[some 1, none]] = [none] ∧
    specRowMin [some 1, none] = some 1 ∧
    (none : Val) ≠ some 1 := by
  refine ⟨rfl, rfl, by simp⟩

theorem foldl_nanMin_all_some (xs : List Val) (a : ℚ)
    (hall : ∀ v ∈ xs, v ≠ none) :
    xs.foldl nanMin (some a) = some ((xs.filterMap id).foldl min a) := by
  induction xs generalizing a with
  | nil => rfl
  | cons v xs ih =>
      match v with
      | none => exact absurd rfl (hall none (by simp))
      | some b =>
          rw [List.foldl_cons]
          show xs.foldl nanMin (some (min a b)) = _
          rw [ih (min a b) (fun w hw => hall w (by simp [hw]))]
          rfl

/-- C3 amended: `minvals[i]` is the NaN-propagating `np.min` of row `i`: it
equals the minimum over the finite entries only when the row has no missing
entry, and it is NaN as soon as any entry of the row is missing. -/
theorem c3_amended (row : List Val) (hne : row ≠ []) :
    rowMin row = if none ∈ row then none else specRowMin row := by
  by_cases hmem : none ∈ row
  · rw [if_pos hmem]
    exact rowMin_of_none_mem row hmem
  · rw [if_neg hmem]
    match row, hne with
    | v :: xs, _ =>
        match v with
        | none => exact absurd (by simp) hmem
        | some a =>
            show xs.foldl nanMin (some a) = specRowMin (some a :: xs)
            rw [foldl_nanMin_all_some xs a
              (fun w hw hwn => hmem (by simp [hwn ▸ hw]))]
            rfl

theorem c3_amended_witness :
    ([some 2, none] : List Val) ≠ [] ∧ ([some 3, some 2] : List Val) ≠ [] ∧
    rowMin [some 2, none] =
      (if none ∈ ([some 2, none] : List Val) then none
        else specRowMin [some 2, none]) ∧
    rowMin [some 3, some 2] =
      (if none ∈ ([some 3, some 2] : List Val) then none
        else specRowMin [some 3, some 2]) :=
  ⟨by simp, by simp, c3_amended [some 2, none] (by simp),
    c3_amended [some 3, some 2] (by simp)⟩

theorem curveBuild_not_mem_stagesPre (cfg : Config) :
    Stage.curveBuild ∉ stagesPre cfg := by
  unfold stagesPre
  cases cfg.usetex? <;> cases hpp : cfg.ppfix <;> cases cfg.thmax? <;> simp

theorem renderS_not_mem_stagesPre (cfg : Config) :
    Stage.renderS ∉ stagesPre cfg := by
  unfold stagesPre
  cases cfg.usetex? <;> cases hpp : cfg.ppfix <;> cases cfg.thmax? <;> simp

theorem minvalsS_mem_stagesPre (cfg : Config) :
    Stage.minvalsS ∈ stagesPre cfg := by
  unfold stagesPre
  cases cfg.usetex? <;> cases hpp : cfg.ppfix <;> cases cfg.thmax? <;> simp

theorem smallFix_mem_stagesPre (cfg : Config) (h : cfg.ppfix = true) :
    Stage.smallFix ∈ stagesPre cfg := by
  unfold stagesPre
  rw [h]
  cases cfg.usetex? <;> cases cfg.thmax? <;> simp

theorem thmaxAutoS_mem_stagesPre (cfg : Config) (h : cfg.thmax? = none) :
    Stage.thmaxAutoS ∈ stagesPre cfg := by
  unfold stagesPre
  rw [h]
  cases cfg.usetex? <;> cases hpp : cfg.ppfix <;> simp

/-- C10: calling `perfprof` without a `linespecs` argument (its default is
`None`) always raises `TypeError` at the `len(linespecs)` check of line 134:
no curve is built, no rendering happens, and neither of the two
`ValueError`s is raised.  The matrix well-formedness hypotheses delimit the
embedding's domain (numpy would already fail on lines 122-129 for an empty
or ragged matrix). -/
theorem c10_linespecs_none_typeerror (cfg : Config) (tex0 : Bool)
    (data : List (List Val)) (h : cfg.linespecs? = none)
    (hne : data ≠ []) (hrow : ∀ row ∈ data, row ≠ [])
    (hrect : ∀ row ∈ data, row.length = (data.headD []).length) :
    (perfprof cfg tex0 data).result = .error .typeError ∧
    Stage.curveBuild ∉ (perfprof cfg tex0 data).stages ∧
    Stage.renderS ∉ (perfprof cfg tex0 data).stages := by
  rw [perfprof_linespecs_none cfg tex0 data h]
  exact ⟨rfl, curveBuild_not_mem_stagesPre cfg, renderS_not_mem_stagesPre cfg⟩

theorem c10_linespecs_none_typeerror_witness :
    (perfprof ⟨none, none, 1/10, none, false, 0, 0, none⟩ false
        [[some 1]]).result = .error .typeError ∧
    Stage.curveBuild ∉
      (perfprof ⟨none, none, 1/10, none, false, 0, 0, none⟩ false
        [[some 1]]).stages ∧
    Stage.renderS ∉
      (perfprof ⟨none, none, 1/10, none, false, 0, 0, none⟩ false
        [[some 1]]).stages :=
  c10_linespecs_none_typeerror _ false _ rfl (by simp) (by simp) (by simp)

/-- C9 fails on the code: there is no `try`/`finally` around the body, so
when the call raises (here: a `linespecs` length mismatch) after the
`usetex` value has been applied (line 118), the restoration code of lines
195-199 is never reached and the ambient flag keeps the requested value,
not the prior one. -/
theorem c9_counterexample :
    (perfprof ⟨some ["a", "b"], none, 1/10, none, false, 0, 0, some true⟩
        false [[some 1]]).result = .error .linespecsMismatch ∧
    (perfprof ⟨some ["a", "b"], none, 1/10, none, false, 0, 0, some true⟩
        false [[some 1]]).texFinal = true ∧
    (true : Bool) ≠ false := by
  refine ⟨?_, ?_, by simp⟩ <;>
    rw [perfprof_linespecs_mismatch _ false _ ["a", "b"] rfl (by simp [nOf, adjData])] <;>
      rfl

/-- C9 amended: the requested `usetex` value is applied for the duration of
the call and the prior value is restored on the successful exit path only;
when the call raises, the applied value persists. -/
theorem c9_amended (cfg : Config) (tex0 : Bool) (data : List (List Val))
    (u : Bool) (hu : cfg.usetex? = some u) :
    (∀ curves, (perfprof cfg tex0 data).result = .ok curves →
      (perfprof cfg tex0 data).texFinal = tex0) ∧
    (∀ e, (perfprof cfg tex0 data).result = .error e →
      (perfprof cfg tex0 data).texFinal = u) := by
  constructor
  · intro curves h
    exact (perfprof_ok_inv cfg tex0 data curves h).2
  · intro e h
    rw [(perfprof_error_inv cfg tex0 data e h).1]
    simp [texApplied, hu]

theorem c9_amended_witness :
    (perfprof ⟨some ["a"], none, 1/10, none, false, 0, 0, some true⟩
        false [[some 1]]).texFinal = false :=
  (c9_amended ⟨some ["a"], none, 1/10, none, false, 0, 0, some true⟩
      false [[some 1]] true rfl).1
    (curvesOf ⟨some ["a"], none, 1/10, none, false, 0, 0, some true⟩ [[some 1]])
    (by
      rw [perfprof_ok_of ⟨some ["a"], none, 1/10, none, false, 0, 0, some true⟩
        false [[some 1]] ["a"] rfl rfl (fun lg hlg => by cases hlg)])

/-- C7 fails on the code: nothing in `perfprof` validates the resolved
`thmax` (lines 129-132 go straight from computing it to the shape
unpacking).  With a caller-supplied `thmax = 1/2 ≤ 1` and valid `linespecs`
the call succeeds and produces curves instead of raising. -/
theorem c7_counterexample :
    resolvedThmax ⟨some ["a"], some (1/2), 1/10, none, false, 0, 0, none⟩
        [[some 1]] = some (1/2) ∧
    ((1 : ℚ)/2 ≤ 1) ∧
    (perfprof ⟨some ["a"], some (1/2), 1/10, none, false, 0, 0, none⟩ false
        [[some 1]]).result =
      .ok (curvesOf ⟨some ["a"], some (1/2), 1/10, none, false, 0, 0, none⟩
        [[some 1]]) := by
  refine ⟨rfl, by norm_num, ?_⟩
  rw [perfprof_ok_of ⟨some ["a"], some (1/2), 1/10, none, false, 0, 0, none⟩
    false [[some 1]] ["a"] rfl rfl (fun lg hlg => by cases hlg)]

/-- C7 amended: the code performs no `thmax` validation at all.  Whenever
the style and legend length checks pass, the call returns curves, for any
caller-supplied `thmax`, including values `≤ 1`; no `ValueError` tied to
`thmax` exists. -/
theorem c7_amended (cfg : Config) (tex0 : Bool) (data : List (List Val))
    (ls : List String) (t : ℚ) (h1 : cfg.linespecs? = some ls)
    (h2 : ls.length = nOf cfg data)
    (h3 : ∀ lg, cfg.legendnames? = some lg → lg.length = nOf cfg data)
    (ht : cfg.thmax? = some t) (hle : t ≤ 1) :
    resolvedThmax cfg data = some t ∧
    (perfprof cfg tex0 data).result = .ok (curvesOf cfg data) := by
  constructor
  · unfold resolvedThmax
    rw [ht]
  · rw [perfprof_ok_of cfg tex0 data ls h1 h2 h3]

theorem c7_amended_witness :
    resolvedThmax ⟨some ["a", "b"], some 1, 1/10, none, false, 0, 0, none⟩
        [[some 2, some 3]] = some 1 ∧
    (perfprof ⟨some ["a", "b"], some 1, 1/10, none, false, 0, 0, none⟩ true
        [[some 2, some 3]]).result =
      .ok (curvesOf ⟨some ["a", "b"], some 1, 1/10, none, false, 0, 0, none⟩
        [[some 2, some 3]]) :=
  c7_amended ⟨some ["a", "b"], some 1, 1/10, none, false, 0, 0, none⟩ true
    [[some 2, some 3]] ["a", "b"] 1 rfl rfl (fun lg hlg => by cases hlg) rfl
    le_rfl

/-- C8 fails on the code in its ordering part: the `linespecs` length check
sits at line 134, after the conversion (122), the small-value adjustment
(124-127), the per-case minimums (129) and the `thmax` resolution (130-131)
have all executed.  On a mismatched call with `ppfix` enabled and automatic
`thmax`, the executed-stage trace contains those computation stages before
the `ValueError` is raised, contradicting "before any computation
proceeds". -/
theorem c8_counterexample :
    (perfprof ⟨some ["a", "b"], none, 1/10, none, true, 1, 2, none⟩ false
        [[some 1]]).result = .error .linespecsMismatch ∧
    Stage.minvalsS ∈
      (perfprof ⟨some ["a", "b"], none, 1/10, none, true, 1, 2, none⟩ false
        [[some 1]]).stages ∧
    Stage.thmaxAutoS ∈
      (perfprof ⟨some ["a", "b"], none, 1/10, none, true, 1, 2, none⟩ false
        [[some 1]]).stages ∧
    Stage.smallFix ∈
      (perfprof ⟨some ["a", "b"], none, 1/10, none, true, 1, 2, none⟩ false
        [[some 1]]).stages := by
  rw [perfprof_linespecs_mismatch ⟨some ["a", "b"], none, 1/10, none, true, 1, 2, none⟩
    false [[some 1]] ["a", "b"] rfl (by simp [nOf, adjData])]
  dsimp only
  refine ⟨rfl, minvalsS_mem_stagesPre _, thmaxAutoS_mem_stagesPre _ rfl,
    smallFix_mem_stagesPre _ rfl⟩

/-- C8 amended: a `linespecs` length mismatch always raises the
`ValueError` with no curve building and no rendering (fail fast before any
plotting), but only after the data conversion, the optional small-value
adjustment, the per-case minimums and the `thmax` resolution have already
executed. -/
theorem c8_amended (cfg : Config) (tex0 : Bool) (data : List (List Val))
    (ls : List String) (h1 : cfg.linespecs? = some ls)
    (h2 : ls.length ≠ nOf cfg data) :
    (perfprof cfg tex0 data).result = .error .linespecsMismatch ∧
    (perfprof cfg tex0 data).stages = stagesPre cfg ∧
    Stage.minvalsS ∈ stagesPre cfg ∧
    Stage.curveBuild ∉ stagesPre cfg ∧
    Stage.renderS ∉ stagesPre cfg ∧
    (cfg.ppfix = true → Stage.smallFix ∈ stagesPre cfg) ∧
    (cfg.thmax? = none → Stage.thmaxAutoS ∈ stagesPre cfg) := by
  rw [perfprof_linespecs_mismatch cfg tex0 data ls h1 h2]
  exact ⟨rfl, rfl, minvalsS_mem_stagesPre cfg, curveBuild_not_mem_stagesPre cfg,
    renderS_not_mem_stagesPre cfg, smallFix_mem_stagesPre cfg,
    thmaxAutoS_mem_stagesPre cfg⟩

theorem c8_amended_witness :
    (perfprof ⟨some ["a", "b", "c"], none, 1/10, none, false, 0, 0, none⟩ false
        [[some 1, some 2]]).result = .error .linespecsMismatch ∧
    (perfprof ⟨some ["a", "b", "c"], none, 1/10, none, false, 0, 0, none⟩ false
        [[some 1, some 2]]).stages =
      stagesPre ⟨some ["a", "b", "c"], none, 1/10, none, false, 0, 0, none⟩ ∧
    Stage.minvalsS ∈
      stagesPre ⟨some ["a", "b", "c"], none, 1/10, none, false, 0, 0, none⟩ ∧
    Stage.curveBuild ∉
      stagesPre ⟨some ["a", "b", "c"], none, 1/10, none, false, 0, 0, none⟩ ∧
    Stage.renderS ∉
      stagesPre ⟨some ["a", "b", "c"], none, 1/10, none, false, 0, 0, none⟩ ∧
    (((⟨some ["a", "b", "c"], none, 1/10, none, false, 0, 0, none⟩ : Config)).ppfix = true →
      Stage.smallFix ∈
        stagesPre ⟨some ["a", "b", "c"], none, 1/10, none, false, 0, 0, none⟩) ∧
    (((⟨some ["a", "b", "c"], none, 1/10, none, false, 0, 0, none⟩ : Config)).thmax? = none →
      Stage.thmaxAutoS ∈
        stagesPre ⟨some ["a", "b", "c"], none, 1/10, none, false, 0, 0, none⟩) :=
  c8_amended ⟨some ["a", "b", "c"], none, 1/10, none, false, 0, 0, none⟩ false
    [[some 1, some 2]] ["a", "b", "c"] rfl (by simp [nOf, adjData])

theorem filterMap_id_length_lt {l : List Val} (h : none ∈ l) :
    (l.filterMap id).length < l.length := by
  induction l with
  | nil => cases h
  | cons v l ih =>
      match v with
      | none =>
          rw [filterMap_id_cons_none]
          exact Nat.lt_succ_of_le (List.length_filterMap_le id l)
      | some a =>
          rw [filterMap_id_cons_some]
          have hmem : none ∈ l := by
            rcases List.mem_cons.mp h with h' | h'
            · cases h'
            · exact h'
          simpa using Nat.succ_lt_succ (ih hmem)

/-- C1: the probability vector of algorithm `j` at index `k` is the number
of ratio-column entries `≤ theta[k]` divided by the total row count `m`
(lines 152-157), and a missing entry in column `j` caps every probability at
`(m-1)/m` (the missing row never contributes to the count but stays in the
denominator). -/
theorem c1_prob_over_all_rows (cfg : Config) (data : List (List Val))
    (j k : ℕ) (hk : k < (thetaOf cfg data j).length) :
    (probOf cfg data j).getD k 0 =
      ((colOf cfg data j).countP
          (fun c => decide (c ≤ (thetaOf cfg data j).getD k 0)) : ℚ) /
        (mOf cfg data) ∧
    ∀ row ∈ adjData cfg data, row.getD j none = none →
      (probOf cfg data j).getD k 0 ≤
        ((mOf cfg data : ℚ) - 1) / (mOf cfg data) := by
  have hlenp : k < (probOf cfg data j).length := by
    rw [probOf, probList_length]
    exact hk
  have heq : (probOf cfg data j).getD k 0 =
      ((colOf cfg data j).countP
          (fun c => decide (c ≤ (thetaOf cfg data j).getD k 0)) : ℚ) /
        (mOf cfg data) := by
    rw [List.getD_eq_getElem _ _ hlenp, List.getD_eq_getElem _ _ hk]
    simp only [probOf, probList, List.getElem_map]
    rfl
  refine ⟨heq, ?_⟩
  intro row hrow hnone
  have hm : mOf cfg data = (adjData cfg data).length := rfl
  have hmv : minvalsOf cfg data = (adjData cfg data).map rowMin := rfl
  have hnmem : none ∈ ratioCol (adjData cfg data) (minvalsOf cfg data) j := by
    rw [hmv, ratioCol_eq_map, List.mem_map]
    exact ⟨row, hrow, by rw [hnone]; exact nanDiv_none_left _⟩
  have hcollen : (colOf cfg data j).length < mOf cfg data := by
    rw [hm]
    calc (colOf cfg data j).length
        < (ratioCol (adjData cfg data) (minvalsOf cfg data) j).length :=
          filterMap_id_length_lt hnmem
      _ ≤ (adjData cfg data).length := by
          rw [hmv, ratioCol_eq_map, List.length_map]
  have hcount : ((colOf cfg data j).countP
      (fun c => decide (c ≤ (thetaOf cfg data j).getD k 0))) <
      mOf cfg data :=
    lt_of_le_of_lt (List.countP_le_length _) hcollen
  rw [heq]
  have hmpos : 0 < mOf cfg data := lt_of_le_of_lt (Nat.zero_le _) hcount
  refine div_le_div_of_nonneg_right ?_ (by positivity)
  have : ((colOf cfg data j).countP
      (fun c => decide (c ≤ (thetaOf cfg data j).getD k 0)) : ℚ) + 1 ≤
      (mOf cfg data : ℚ) := by
    exact_mod_cast Nat.succ_le_of_lt hcount
  linarith

theorem c1_prob_over_all_rows_witness :
    0 < (thetaOf ⟨some ["a", "b"], none, 1/10, none, false, 0, 0, none⟩
      [[some 1, some 1], [some 1, some 1], [some 1, some 1], [some 1, some 1],
        [none, some 1]] 0).length ∧
    (probOf ⟨some ["a", "b"], none, 1/10, none, false, 0, 0, none⟩
        [[some 1, some 1], [some 1, some 1], [some 1, some 1], [some 1, some 1],
          [none, some 1]] 0).getD 0 0 ≤
      ((mOf ⟨some ["a", "b"], none, 1/10, none, false, 0, 0, none⟩
          [[some 1, some 1], [some 1, some 1], [some 1, some 1], [some 1, some 1],
            [none, some 1]] : ℚ) - 1) /
        (mOf ⟨some ["a", "b"], none, 1/10, none, false, 0, 0, none⟩
          [[some 1, some 1], [some 1, some 1], [some 1, some 1], [some 1, some 1],
            [none, some 1]]) := by
  have hcol : colOf ⟨some ["a", "b"], none, 1/10, none, false, 0, 0, none⟩
      [[some 1, some 1], [some 1, some 1], [some 1, some 1], [some 1, some 1],
        [none, some 1]] 0 = [1, 1, 1, 1] := by
    norm_num [colOf, ratioCol, adjData, minvalsOf, rowMin, nanMin, nanDiv,
      filterMap_id_cons_some, filterMap_id_cons_none]
  have htheta : thetaOf ⟨some ["a", "b"], none, 1/10, none, false, 0, 0, none⟩
      [[some 1, some 1], [some 1, some 1], [some 1, some 1], [some 1, some 1],
        [none, some 1]] 0 = [1] := by
    rw [thetaOf, hcol]
    norm_num [npUnique, List.dedup_cons_of_mem, List.insertionSort]
  have hk : 0 < (thetaOf ⟨some ["a", "b"], none, 1/10, none, false, 0, 0, none⟩
      [[some 1, some 1], [some 1, some 1], [some 1, some 1], [some 1, some 1],
        [none, some 1]] 0).length := by
    rw [htheta]
    simp
  refine ⟨hk, ?_⟩
  refine (c1_prob_over_all_rows
    ⟨some ["a", "b"], none, 1/10, none, false, 0, 0, none⟩
    [[some 1, some 1], [some 1, some 1], [some 1, some 1], [some 1, some 1],
      [none, some 1]] 0 0 hk).2 [none, some 1] ?_ rfl
  show [none, some 1] ∈
    ([[some 1, some 1], [some 1, some 1], [some 1, some 1], [some 1, some 1],
      [none, some 1]] : List (List Val))
  simp

theorem dbl_length (l : List ℚ) : (dbl l).length = 2 * l.length := by
  induction l with
  | nil => rfl
  | cons a l ih => simp [dbl, ih]; ring

theorem stairX_length (theta : List ℚ) :
    (stairX theta).length = 2 * theta.length - 1 := by
  rw [stairX_eq_dbl, List.length_tail, dbl_length]

theorem stairY_length (prob : List ℚ) :
    (stairY prob).length = 2 * prob.length - 1 := by
  rw [stairY_eq_dbl, List.length_dropLast, dbl_length]

theorem stairX_headD (theta : List ℚ) (h : theta ≠ []) :
    (stairX theta).headD 0 = theta.headD 0 := by
  rw [stairX_spec]
  match theta, h with
  | t :: ts, _ => rfl

/-- C2: the staircase conversion (lines 159-162) yields exactly `2r - 1`
points whose x-values follow the first threshold then every later threshold
twice, and whose y-values hold each probability flat until the next jump
(`specStairX`/`specStairY`, stated from the spec's words); the loop body
then applies exactly the two conditional boundary extensions: `(1, 0)` and
`(theta[0], 0)` are prepended precisely when the first x-value is
`≥ 1 + tol`, and `(thmax, last y)` is appended precisely when the last
x-value is `< thmax - tol`. -/
theorem c2_staircase_conversion (cfg : Config) (data : List (List Val))
    (j : ℕ) (tm : ℚ) (hcol : colOf cfg data j ≠ [])
    (htm : resolvedThmax cfg data = some tm) :
    (stairX (thetaOf cfg data j)).length = 2 * (thetaOf cfg data j).length - 1 ∧
    (stairY (probOf cfg data j)).length = 2 * (thetaOf cfg data j).length - 1 ∧
    stairX (thetaOf cfg data j) = specStairX (thetaOf cfg data j) ∧
    stairY (probOf cfg data j) = specStairY (probOf cfg data j) ∧
    (stairX (thetaOf cfg data j)).headD 0 = (thetaOf cfg data j).headD 0 ∧
    perfCurve cfg.tol (resolvedThmax cfg data) (mOf cfg data)
        (ratioCol (adjData cfg data) (minvalsOf cfg data) j) =
      some (rightExt cfg.tol tm
        (leftExt cfg.tol
          (stairX (thetaOf cfg data j), stairY (probOf cfg data j)))) ∧
    (∀ x y : List ℚ,
      (1 + cfg.tol ≤ x.headD 0 →
        leftExt cfg.tol (x, y) = (1 :: x.headD 0 :: x, 0 :: 0 :: y)) ∧
      (¬ 1 + cfg.tol ≤ x.headD 0 → leftExt cfg.tol (x, y) = (x, y))) ∧
    (∀ x y : List ℚ,
      (x.getLastD 0 < tm - cfg.tol →
        rightExt cfg.tol tm (x, y) = (x ++ [tm], y ++ [y.getLastD 0])) ∧
      (¬ x.getLastD 0 < tm - cfg.tol → rightExt cfg.tol tm (x, y) = (x, y))) := by
  refine ⟨stairX_length _, ?_, stairX_spec _, stairY_spec _, ?_, ?_, ?_, ?_⟩
  · rw [stairY_length, probOf, probList_length]
    rfl
  · exact stairX_headD _ (npUnique_ne_nil hcol)
  · rw [perfCurve_eq_some _ _ _ _ hcol, htm]
    rfl
  · intro x y
    constructor
    · intro h
      unfold leftExt
      dsimp only
      rw [if_pos h]
    · intro h
      unfold leftExt
      dsimp only
      rw [if_neg h]
  · intro x y
    constructor
    · intro h
      unfold rightExt
      dsimp only
      rw [if_pos h]
    · intro h
      unfold rightExt
      dsimp only
      rw [if_neg h]

theorem c2_staircase_conversion_witness :
    colOf ⟨some ["a", "b"], none, 1/10, none, false, 0, 0, none⟩
      [[some 1, some 2], [some 2, some 1]] 0 ≠ [] ∧
    resolvedThmax ⟨some ["a", "b"], none, 1/10, none, false, 0, 0, none⟩
      [[some 1, some 2], [some 2, some 1]] = some 2 ∧
    (stairX (thetaOf ⟨some ["a", "b"], none, 1/10, none, false, 0, 0, none⟩
        [[some 1, some 2], [some 2, some 1]] 0)).length =
      2 * (thetaOf ⟨some ["a", "b"], none, 1/10, none, false, 0, 0, none⟩
        [[some 1, some 2], [some 2, some 1]] 0).length - 1 ∧
    stairX (thetaOf ⟨some ["a", "b"], none, 1/10, none, false, 0, 0, none⟩
        [[some 1, some 2], [some 2, some 1]] 0) =
      specStairX (thetaOf ⟨some ["a", "b"], none, 1/10, none, false, 0, 0, none⟩
        [[some 1, some 2], [some 2, some 1]] 0) := by
  have hcol : colOf ⟨some ["a", "b"], none, 1/10, none, false, 0, 0, none⟩
      [[some 1, some 2], [some 2, some 1]] 0 = [1, 2] := by
    norm_num [colOf, ratioCol, adjData, minvalsOf, rowMin, nanMin, nanDiv,
      filterMap_id_cons_some, filterMap_id_cons_none]
  have hcne : colOf ⟨some ["a", "b"], none, 1/10, none, false, 0, 0, none⟩
      [[some 1, some 2], [some 2, some 1]] 0 ≠ [] := by
    rw [hcol]
    simp
  have htm : resolvedThmax ⟨some ["a", "b"], none, 1/10, none, false, 0, 0, none⟩
      [[some 1, some 2], [some 2, some 1]] = some 2 := by
    norm_num [resolvedThmax, adjData, minvalsOf, listNanMax, rowMax, rowMin,
      nanMax, nanMin, nanDiv]
  have happ := c2_staircase_conversion
    ⟨some ["a", "b"], none, 1/10, none, false, 0, 0, none⟩
    [[some 1, some 2], [some 2, some 1]] 0 2 hcne htm
  exact ⟨hcne, htm, happ.1, happ.2.2.1⟩

/-- C4 fails as stated for caller-supplied `thmax`: with `thmax = 1/2` the
produced curve for the second column of `[[1, 1], [1, 3]]` contains the
x-value 3, which is not `≤ thmax`, and the curve is not clipped; even the
first x-value 1 exceeds `thmax`. -/
theorem c4_counterexample :
    (perfprof ⟨some ["a", "b"], some (1/2), 1/10, none, false, 0, 0, none⟩
        false [[some 1, some 1], [some 1, some 3]]).result =
      .ok [some ([1], [1]), some ([1, 3, 3], [1/2, 1/2, 1])] ∧
    resolvedThmax ⟨some ["a", "b"], some (1/2), 1/10, none, false, 0, 0, none⟩
      [[some 1, some 1], [some 1, some 3]] = some (1/2) ∧
    (3 : ℚ) ∈ [(1 : ℚ), 3, 3] ∧ ¬ ((3 : ℚ) ≤ 1/2) := by
  refine ⟨?_, rfl, by simp, by norm_num⟩
  rw [perfprof_ok_of ⟨some ["a", "b"], some (1/2), 1/10, none, false, 0, 0, none⟩
    false [[some 1, some 1], [some 1, some 3]] ["a", "b"] rfl rfl
    (fun lg hlg => by cases hlg)]
  have hr0 : ratioCol
      (adjData ⟨some ["a", "b"], some (1/2), 1/10, none, false, 0, 0, none⟩
        [[some 1, some 1], [some 1, some 3]])
      (minvalsOf ⟨some ["a", "b"], some (1/2), 1/10, none, false, 0, 0, none⟩
        [[some 1, some 1], [some 1, some 3]]) 0 = [some 1, some 1] := by
    norm_num [ratioCol, adjData, minvalsOf, rowMin, nanMin, nanDiv]
  have hr1 : ratioCol
      (adjData ⟨some ["a", "b"], some (1/2), 1/10, none, false, 0, 0, none⟩
        [[some 1, some 1], [some 1, some 3]])
      (minvalsOf ⟨some ["a", "b"], some (1/2), 1/10, none, false, 0, 0, none⟩
        [[some 1, some 1], [some 1, some 3]]) 1 = [some 1, some 3] := by
    norm_num [ratioCol, adjData, minvalsOf, rowMin, nanMin, nanDiv]
  have hc0 : perfCurve (1/10) (some (1/2)) 2 [some 1, some 1] =
      some ([1], [1]) := by
    rw [perfCurve_eq_some _ _ _ _ (fun hcon => List.noConfusion hcon)]
    have hu : npUnique [(1 : ℚ), 1] = [1] := by
      norm_num [npUnique, List.dedup_cons_of_mem, List.insertionSort]
    have hp : probList [(1 : ℚ), 1] 2 = [1] := by
      rw [probList, hu]
      norm_num [List.countP_cons]
    rw [show List.filterMap id [some (1 : ℚ), some 1] = [1, 1] from rfl, hu, hp]
    rw [stairX_spec, stairY_spec]
    show some (rightExt (1/10) (1/2) (leftExt (1/10) ([1], [1]))) = _
    rw [show leftExt (1/10) ([(1 : ℚ)], [(1 : ℚ)]) = ([1], [1]) by
      unfold leftExt; rw [if_neg (by norm_num)]]
    rw [show rightExt (1/10) (1/2) ([(1 : ℚ)], [(1 : ℚ)]) = ([1], [1]) by
      unfold rightExt; rw [if_neg (by norm_num)]]
  have hc1 : perfCurve (1/10) (some (1/2)) 2 [some 1, some 3] =
      some ([1, 3, 3], [1/2, 1/2, 1]) := by
    rw [perfCurve_eq_some _ _ _ _ (fun hcon => List.noConfusion hcon)]
    have hu : npUnique [(1 : ℚ), 3] = [1, 3] := by
      norm_num [npUnique, List.dedup_cons_of_not_mem, List.insertionSort,
        List.orderedInsert]
    have hp : probList [(1 : ℚ), 3] 2 = [1/2, 1] := by
      rw [probList, hu]
      norm_num [List.countP_cons]
    rw [show List.filterMap id [some (1 : ℚ), some 3] = [1, 3] from rfl, hu, hp]
    rw [stairX_spec, stairY_spec]
    show some (rightExt (1/10) (1/2)
      (leftExt (1/10) ([1, 3, 3], [1/2, 1/2, 1]))) = _
    rw [show leftExt (1/10) ([(1 : ℚ), 3, 3], [(1 : ℚ)/2, 1/2, 1]) =
        ([1, 3, 3], [1/2, 1/2, 1]) by
      unfold leftExt; rw [if_neg (by norm_num)]]
    rw [show rightExt (1/10) (1/2) ([(1 : ℚ), 3, 3], [(1 : ℚ)/2, 1/2, 1]) =
        ([1, 3, 3], [1/2, 1/2, 1]) by
      unfold rightExt; rw [if_neg (by norm_num)]]
  show Except.ok (curvesOf _ _) = _
  rw [curvesOf]
  rw [show nOf ⟨some ["a", "b"], some (1/2), 1/10, none, false, 0, 0, none⟩
    [[some 1, some 1], [some 1, some 3]] = 2 from rfl]
  rw [show List.range 2 = [0, 1] from rfl, List.map_cons, List.map_cons,
    List.map_nil]
  rw [show (⟨some ["a", "b"], some (1/2), 1/10, none, false, 0, 0, none⟩ :
    Config).tol = 1/10 from rfl]
  rw [show resolvedThmax ⟨some ["a", "b"], some (1/2), 1/10, none, false, 0, 0, none⟩
    [[some 1, some 1], [some 1, some 3]] = some (1/2) from rfl]
  rw [show mOf ⟨some ["a", "b"], some (1/2), 1/10, none, false, 0, 0, none⟩
    [[some 1, some 1], [some 1, some 3]] = 2 from rfl]
  rw [hr0, hr1, hc0, hc1]

/-- C4 amended: for an all-finite positive matrix with the automatically
resolved `thmax` (and no small-value adjustment), every produced curve has a
non-decreasing x-sequence inside `[1, thmax]` and a non-decreasing
y-sequence inside `[0, 1]`. -/
theorem c4_amended (cfg : Config) (tex0 : Bool) (data : List (List Val))
    (hth : cfg.thmax? = none) (hpp : cfg.ppfix = false)
    (hne : data ≠ []) (hrows : ∀ row ∈ data, row ≠ [])
    (hpos : ∀ row ∈ data, ∀ v ∈ row, ∃ q, v = some q ∧ 0 < q) :
    ∃ tm : ℚ, resolvedThmax cfg data = some tm ∧ 1 ≤ tm ∧
      ∀ curves, (perfprof cfg tex0 data).result = .ok curves →
        ∀ co ∈ curves, ∀ xs ys, co = some (xs, ys) →
          List.Chain' (· ≤ ·) xs ∧ List.Chain' (· ≤ ·) ys ∧
          (∀ x ∈ xs, 1 ≤ x ∧ x ≤ tm) ∧ (∀ y ∈ ys, 0 ≤ y ∧ y ≤ 1) := by
  have hadj : adjData cfg data = data := by
    unfold adjData
    rw [hpp]
    rfl
  obtain ⟨tm, hlist, htm1, hratios⟩ := data_bounds data hne hrows hpos
  have hres : resolvedThmax cfg data = some tm := by
    unfold resolvedThmax
    rw [hth]
    have hmv : minvalsOf cfg data = (adjData cfg data).map rowMin := rfl
    rw [hmv, hadj]
    exact hlist
  refine ⟨tm, hres, htm1, ?_⟩
  intro curves hok co hco xs ys hxy
  obtain ⟨hcurves, _⟩ := perfprof_ok_inv cfg tex0 data curves hok
  subst hcurves
  rw [curvesOf] at hco
  rw [List.mem_map] at hco
  obtain ⟨j, _, hcoeq⟩ := hco
  have hmv : minvalsOf cfg data = (adjData cfg data).map rowMin := rfl
  have hbnd : ∀ c ∈ (ratioCol (adjData cfg data) (minvalsOf cfg data) j).filterMap id,
      1 ≤ c ∧ c ≤ tm := by
    rw [hmv, hadj]
    exact hratios j
  have hlen : ((ratioCol (adjData cfg data) (minvalsOf cfg data) j).filterMap id).length ≤
      mOf cfg data := by
    calc ((ratioCol (adjData cfg data) (minvalsOf cfg data) j).filterMap id).length
        ≤ (ratioCol (adjData cfg data) (minvalsOf cfg data) j).length :=
          List.length_filterMap_le id _
      _ ≤ (adjData cfg data).length := by
          rw [hmv, ratioCol_eq_map, List.length_map]
      _ = mOf cfg data := rfl
  refine perfCurve_props cfg.tol tm (mOf cfg data) _ hbnd hlen xs ys ?_
  rw [← hxy, ← hcoeq, hres]

theorem c4_amended_witness :
    ∃ tm : ℚ,
      resolvedThmax ⟨some ["a", "b"], none, 1/10, none, false, 0, 0, none⟩
        [[some 1, some 2], [some 2, some 1]] = some tm ∧ 1 ≤ tm ∧
      ∀ curves,
        (perfprof ⟨some ["a", "b"], none, 1/10, none, false, 0, 0, none⟩ false
          [[some 1, some 2], [some 2, some 1]]).result = .ok curves →
        ∀ co ∈ curves, ∀ xs ys, co = some (xs, ys) →
          List.Chain' (· ≤ ·) xs ∧ List.Chain' (· ≤ ·) ys ∧
          (∀ x ∈ xs, 1 ≤ x ∧ x ≤ tm) ∧ (∀ y ∈ ys, 0 ≤ y ∧ y ≤ 1) :=
  c4_amended ⟨some ["a", "b"], none, 1/10, none, false, 0, 0, none⟩ false
    [[some 1, some 2], [some 2, some 1]] rfl rfl (by simp) (by simp)
    (by
      intro row hr v hv
      rcases List.mem_cons.mp hr with rfl | hr
      · rcases List.mem_cons.mp hv with rfl | hv
        · exact ⟨1, rfl, by norm_num⟩
        · rcases List.mem_cons.mp hv with rfl | hv
          · exact ⟨2, rfl, by norm_num⟩
          · cases hv
      · rcases List.mem_cons.mp hr with rfl | hr
        · rcases List.mem_cons.mp hv with rfl | hv
          · exact ⟨2, rfl, by norm_num⟩
          · rcases List.mem_cons.mp hv with rfl | hv
            · exact ⟨1, rfl, by norm_num⟩
            · cases hv
        · cases hr)

theorem nanMin_scale (c : ℚ) (hc : 0 ≤ c) (a b : Val) :
    nanMin (Option.map (fun v => c * v) a) (Option.map (fun v => c * v) b) =
      Option.map (fun v => c * v) (nanMin a b) := by
  cases a <;> cases b <;> simp [nanMin]
  exact (mul_min_of_nonneg _ _ hc).symm

theorem nanMax_scale (c : ℚ) (hc : 0 ≤ c) (a b : Val) :
    nanMax (Option.map (fun v => c * v) a) (Option.map (fun v => c * v) b) =
      Option.map (fun v => c * v) (nanMax a b) := by
  cases a <;> cases b <;> simp [nanMax]
  exact (mul_max_of_nonneg _ _ hc).symm

theorem nanDiv_scale (c : ℚ) (hc : c ≠ 0) (a b : Val) :
    nanDiv (Option.map (fun v => c * v) a) (Option.map (fun v => c * v) b) =
      nanDiv a b := by
  cases a <;> cases b <;> simp [nanDiv]
  exact mul_div_mul_left _ _ hc

theorem rowMin_scale (c : ℚ) (hc : 0 ≤ c) (row : List Val) :
    rowMin (row.map (Option.map (fun v => c * v))) =
      Option.map (fun v => c * v) (rowMin row) := by
  match row with
  | [] => rfl
  | v :: xs =>
      show (xs.map (Option.map (fun v => c * v))).foldl nanMin
        (Option.map (fun v => c * v) v) = Option.map (fun v => c * v) (xs.foldl nanMin v)
      induction xs generalizing v with
      | nil => rfl
      | cons w xs ih =>
          rw [List.map_cons, List.foldl_cons, List.foldl_cons,
            nanMin_scale c hc v w]
          exact ih (nanMin v w)

theorem rowMax_scale (c : ℚ) (hc : 0 ≤ c) (row : List Val) :
    rowMax (row.map (Option.map (fun v => c * v))) =
      Option.map (fun v => c * v) (rowMax row) := by
  match row with
  | [] => rfl
  | v :: xs =>
      show (xs.map (Option.map (fun v => c * v))).foldl nanMax
        (Option.map (fun v => c * v) v) = Option.map (fun v => c * v) (xs.foldl nanMax v)
      induction xs generalizing v with
      | nil => rfl
      | cons w xs ih =>
          rw [List.map_cons, List.foldl_cons, List.foldl_cons,
            nanMax_scale c hc v w]
          exact ih (nanMax v w)

theorem getD_scale (c : ℚ) (row : List Val) (j : ℕ) :
    (row.map (Option.map (fun v => c * v))).getD j none =
      Option.map (fun v => c * v) (row.getD j none) := by
  have h := List.getD_map row (none : Val) (Option.map (fun v => c * v)) (n := j)
  simpa using h

theorem nOf_scale (cfg : Config) (data : List (List Val)) (c : ℚ)
    (hpp : cfg.ppfix = false) :
    nOf cfg (scaleData c data) = nOf cfg data := by
  unfold nOf adjData scaleData
  rw [hpp]
  show ((data.map _).headD []).length = (data.headD []).length
  match data with
  | [] => rfl
  | row :: rest => simp

theorem mOf_scale (cfg : Config) (data : List (List Val)) (c : ℚ)
    (hpp : cfg.ppfix = false) :
    mOf cfg (scaleData c data) = mOf cfg data := by
  unfold mOf adjData scaleData
  rw [hpp]
  simp

theorem adjData_no_ppfix (cfg : Config) (data : List (List Val))
    (hpp : cfg.ppfix = false) : adjData cfg data = data := by
  unfold adjData
  rw [hpp]
  rfl

theorem resolvedThmax_scale (cfg : Config) (data : List (List Val)) (c : ℚ)
    (hc : 0 < c) (hpp : cfg.ppfix = false) :
    resolvedThmax cfg (scaleData c data) = resolvedThmax cfg data := by
  unfold resolvedThmax
  cases hth : cfg.thmax? with
  | some t => rfl
  | none =>
      have hmv1 : minvalsOf cfg (scaleData c data) =
          (scaleData c data).map rowMin := by
        unfold minvalsOf
        rw [adjData_no_ppfix cfg _ hpp]
      have hmv2 : minvalsOf cfg data = data.map rowMin := by
        unfold minvalsOf
        rw [adjData_no_ppfix cfg _ hpp]
      have harg : (scaleData c data).map
          (fun row => nanDiv (rowMax row) (rowMin row)) =
          data.map (fun row => nanDiv (rowMax row) (rowMin row)) := by
        unfold scaleData
        rw [List.map_map]
        refine List.map_congr_left (fun row _ => ?_)
        show nanDiv (rowMax (row.map (Option.map (fun v => c * v))))
          (rowMin (row.map (Option.map (fun v => c * v)))) = _
        rw [rowMax_scale c (le_of_lt hc), rowMin_scale c (le_of_lt hc),
          nanDiv_scale c (ne_of_gt hc)]
      show listNanMax _ = listNanMax _
      rw [adjData_no_ppfix cfg _ hpp, adjData_no_ppfix cfg _ hpp, hmv1, hmv2,
        thmaxList_eq_map, thmaxList_eq_map, harg]

theorem ratioCol_scale (cfg : Config) (data : List (List Val)) (c : ℚ) (j : ℕ)
    (hc : 0 < c) (hpp : cfg.ppfix = false) :
    ratioCol (adjData cfg (scaleData c data)) (minvalsOf cfg (scaleData c data)) j =
      ratioCol (adjData cfg data) (minvalsOf cfg data) j := by
  have hmv1 : minvalsOf cfg (scaleData c data) = (scaleData c data).map rowMin := by
    unfold minvalsOf
    rw [adjData_no_ppfix cfg _ hpp]
  have hmv2 : minvalsOf cfg data = data.map rowMin := by
    unfold minvalsOf
    rw [adjData_no_ppfix cfg _ hpp]
  rw [adjData_no_ppfix cfg _ hpp, adjData_no_ppfix cfg _ hpp, hmv1, hmv2,
    ratioCol_eq_map, ratioCol_eq_map]
  unfold scaleData
  rw [List.map_map]
  refine List.map_congr_left (fun row _ => ?_)
  show nanDiv ((row.map (Option.map (fun v => c * v))).getD j none)
    (rowMin (row.map (Option.map (fun v => c * v)))) = _
  rw [getD_scale, rowMin_scale c (le_of_lt hc), nanDiv_scale c (ne_of_gt hc)]

theorem curvesOf_scale (cfg : Config) (data : List (List Val)) (c : ℚ)
    (hc : 0 < c) (hpp : cfg.ppfix = false) :
    curvesOf cfg (scaleData c data) = curvesOf cfg data := by
  unfold curvesOf
  rw [nOf_scale cfg data c hpp, mOf_scale cfg data c hpp,
    resolvedThmax_scale cfg data c hc hpp]
  refine List.map_congr_left (fun j _ => ?_)
  rw [ratioCol_scale cfg data c j hc hpp]

/-- C5 fails as stated for configurations with `fix_small_values` enabled:
the small-value remapping compares raw entries against the fixed threshold
`fix_max`, so scaling the data moves entries across the threshold and
changes the curves.  With `fix_min = 1`, `fix_max = 2` on `[[2, 4]]`,
halving the data turns the curves' final x-value from 2 into 4/3. -/
theorem c5_counterexample :
    scaleData (1/2) [[some 2, some 4]] = [[some 1, some 2]] ∧
    curvesOf ⟨some ["a", "b"], none, 1/10, none, true, 1, 2, none⟩
      [[some 2, some 4]] =
      [some ([1, 2], [1, 1]), some ([1, 2, 2], [0, 0, 1])] ∧
    curvesOf ⟨some ["a", "b"], none, 1/10, none, true, 1, 2, none⟩
      [[some 1, some 2]] =
      [some ([1, 4/3], [1, 1]), some ([1, 4/3, 4/3], [0, 0, 1])] ∧
    ([some ([(1 : ℚ), 2], [(1 : ℚ), 1]), some ([1, 2, 2], [0, 0, 1])] :
        List (Option (List ℚ × List ℚ))) ≠
      [some ([1, 4/3], [1, 1]), some ([1, 4/3, 4/3], [0, 0, 1])] := by
  have hscale : scaleData (1/2) [[some (2 : ℚ), some 4]] = [[some 1, some 2]] := by
    norm_num [scaleData]
  have hadjA : adjData ⟨some ["a", "b"], none, 1/10, none, true, 1, 2, none⟩
      [[some 2, some 4]] = [[some 2, some 4]] := by
    norm_num [adjData, ppfixEntry]
  have hadjB : adjData ⟨some ["a", "b"], none, 1/10, none, true, 1, 2, none⟩
      [[some 1, some 2]] = [[some (3/2), some 2]] := by
    norm_num [adjData, ppfixEntry]
  have hthA : resolvedThmax ⟨some ["a", "b"], none, 1/10, none, true, 1, 2, none⟩
      [[some 2, some 4]] = some 2 := by
    rw [resolvedThmax]
    show listNanMax _ = _
    rw [show minvalsOf ⟨some ["a", "b"], none, 1/10, none, true, 1, 2, none⟩
      [[some 2, some 4]] = (adjData ⟨some ["a", "b"], none, 1/10, none, true, 1, 2,
        none⟩ [[some 2, some 4]]).map rowMin from rfl]
    rw [hadjA]
    norm_num [listNanMax, rowMax, rowMin, nanMax, nanMin, nanDiv]
  have hthB : resolvedThmax ⟨some ["a", "b"], none, 1/10, none, true, 1, 2, none⟩
      [[some 1, some 2]] = some (4/3) := by
    rw [resolvedThmax]
    show listNanMax _ = _
    rw [show minvalsOf ⟨some ["a", "b"], none, 1/10, none, true, 1, 2, none⟩
      [[some 1, some 2]] = (adjData ⟨some ["a", "b"], none, 1/10, none, true, 1, 2,
        none⟩ [[some 1, some 2]]).map rowMin from rfl]
    rw [hadjB]
    norm_num [listNanMax, rowMax, rowMin, nanMax, nanMin, nanDiv]
  have hrA0 : ratioCol (adjData ⟨some ["a", "b"], none, 1/10, none, true, 1, 2, none⟩
      [[some 2, some 4]]) (minvalsOf ⟨some ["a", "b"], none, 1/10, none, true, 1, 2,
        none⟩ [[some 2, some 4]]) 0 = [some 1] := by
    rw [show minvalsOf ⟨some ["a", "b"], none, 1/10, none, true, 1, 2, none⟩
      [[some 2, some 4]] = (adjData ⟨some ["a", "b"], none, 1/10, none, true, 1, 2,
        none⟩ [[some 2, some 4]]).map rowMin from rfl]
    rw [hadjA]
    norm_num [ratioCol, rowMin, nanMin, nanDiv]
  have hrA1 : ratioCol (adjData ⟨some ["a", "b"], none, 1/10, none, true, 1, 2, none⟩
      [[some 2, some 4]]) (minvalsOf ⟨some ["a", "b"], none, 1/10, none, true, 1, 2,
        none⟩ [[some 2, some 4]]) 1 = [some 2] := by
    rw [show minvalsOf ⟨some ["a", "b"], none, 1/10, none, true, 1, 2, none⟩
      [[some 2, some 4]] = (adjData ⟨some ["a", "b"], none, 1/10, none, true, 1, 2,
        none⟩ [[some 2, some 4]]).map rowMin from rfl]
    rw [hadjA]
    norm_num [ratioCol, rowMin, nanMin, nanDiv]
  have hrB0 : ratioCol (adjData ⟨some ["a", "b"], none, 1/10, none, true, 1, 2, none⟩
      [[some 1, some 2]]) (minvalsOf ⟨some ["a", "b"], none, 1/10, none, true, 1, 2,
        none⟩ [[some 1, some 2]]) 0 = [some 1] := by
    rw [show minvalsOf ⟨some ["a", "b"], none, 1/10, none, true, 1, 2, none⟩
      [[some 1, some 2]] = (adjData ⟨some ["a", "b"], none, 1/10, none, true, 1, 2,
        none⟩ [[some 1, some 2]]).map rowMin from rfl]
    rw [hadjB]
    norm_num [ratioCol, rowMin, nanMin, nanDiv]
  have hrB1 : ratioCol (adjData ⟨some ["a", "b"], none, 1/10, none, true, 1, 2, none⟩
      [[some 1, some 2]]) (minvalsOf ⟨some ["a", "b"], none, 1/10, none, true, 1, 2,
        none⟩ [[some 1, some 2]]) 1 = [some (4/3)] := by
    rw [show minvalsOf ⟨some ["a", "b"], none, 1/10, none, true, 1, 2, none⟩
      [[some 1, some 2]] = (adjData ⟨some ["a", "b"], none, 1/10, none, true, 1, 2,
        none⟩ [[some 1, some 2]]).map rowMin from rfl]
    rw [hadjB]
    norm_num [ratioCol, rowMin, nanMin, nanDiv]
  have hcA0 : perfCurve (1/10) (some 2) 1 [some 1] = some ([1, 2], [1, 1]) := by
    rw [perfCurve_eq_some _ _ _ _ (fun hcon => List.noConfusion hcon)]
    have hu : npUnique [(1 : ℚ)] = [1] := by
      norm_num [npUnique, List.insertionSort]
    have hp : probList [(1 : ℚ)] 1 = [1] := by
      rw [probList, hu]
      norm_num [List.countP_cons]
    rw [show List.filterMap id [some (1 : ℚ)] = [1] from rfl, hu, hp]
    rw [stairX_spec, stairY_spec]
    show some (rightExt (1/10) 2 (leftExt (1/10) ([1], [1]))) = _
    rw [show leftExt (1/10) ([(1 : ℚ)], [(1 : ℚ)]) = ([1], [1]) by
      unfold leftExt; rw [if_neg (by norm_num)]]
    rw [show rightExt (1/10) 2 ([(1 : ℚ)], [(1 : ℚ)]) = ([1, 2], [1, 1]) by
      unfold rightExt; rw [if_pos (by norm_num)]; rfl]
  have hcA1 : perfCurve (1/10) (some 2) 1 [some 2] =
      some ([1, 2, 2], [0, 0, 1]) := by
    rw [perfCurve_eq_some _ _ _ _ (fun hcon => List.noConfusion hcon)]
    have hu : npUnique [(2 : ℚ)] = [2] := by
      norm_num [npUnique, List.insertionSort]
    have hp : probList [(2 : ℚ)] 1 = [1] := by
      rw [probList, hu]
      norm_num [List.countP_cons]
    rw [show List.filterMap id [some (2 : ℚ)] = [2] from rfl, hu, hp]
    rw [stairX_spec, stairY_spec]
    show some (rightExt (1/10) 2 (leftExt (1/10) ([2], [1]))) = _
    rw [show leftExt (1/10) ([(2 : ℚ)], [(1 : ℚ)]) = ([1, 2, 2], [0, 0, 1]) by
      unfold leftExt; rw [if_pos (by norm_num)]; rfl]
    rw [show rightExt (1/10) 2 ([(1 : ℚ), 2, 2], [(0 : ℚ), 0, 1]) =
        ([1, 2, 2], [0, 0, 1]) by
      unfold rightExt; rw [if_neg (by norm_num)]]
  have hcB0 : perfCurve (1/10) (some (4/3)) 1 [some 1] =
      some ([1, 4/3], [1, 1]) := by
    rw [perfCurve_eq_some _ _ _ _ (fun hcon => List.noConfusion hcon)]
    have hu : npUnique [(1 : ℚ)] = [1] := by
      norm_num [npUnique, List.insertionSort]
    have hp : probList [(1 : ℚ)] 1 = [1] := by
      rw [probList, hu]
      norm_num [List.countP_cons]
    rw [show List.filterMap id [some (1 : ℚ)] = [1] from rfl, hu, hp]
    rw [stairX_spec, stairY_spec]
    show some (rightExt (1/10) (4/3) (leftExt (1/10) ([1], [1]))) = _
    rw [show leftExt (1/10) ([(1 : ℚ)], [(1 : ℚ)]) = ([1], [1]) by
      unfold leftExt; rw [if_neg (by norm_num)]]
    rw [show rightExt (1/10) (4/3) ([(1 : ℚ)], [(1 : ℚ)]) = ([1, 4/3], [1, 1]) by
      unfold rightExt; rw [if_pos (by norm_num)]; rfl]
  have hcB1 : perfCurve (1/10) (some (4/3)) 1 [some (4/3)] =
      some ([1, 4/3, 4/3], [0, 0, 1]) := by
    rw [perfCurve_eq_some _ _ _ _ (fun hcon => List.noConfusion hcon)]
    have hu : npUnique [(4 : ℚ)/3] = [4/3] := by
      norm_num [npUnique, List.insertionSort]
    have hp : probList [(4 : ℚ)/3] 1 = [1] := by
      rw [probList, hu]
      norm_num [List.countP_cons]
    rw [show List.filterMap id [some ((4 : ℚ)/3)] = [4/3] from rfl, hu, hp]
    rw [stairX_spec, stairY_spec]
    show some (rightExt (1/10) (4/3) (leftExt (1/10) ([4/3], [1]))) = _
    rw [show leftExt (1/10) ([(4 : ℚ)/3], [(1 : ℚ)]) =
        ([1, 4/3, 4/3], [0, 0, 1]) by
      unfold leftExt; rw [if_pos (by norm_num)]; rfl]
    rw [show rightExt (1/10) (4/3) ([(1 : ℚ), 4/3, 4/3], [(0 : ℚ), 0, 1]) =
        ([1, 4/3, 4/3], [0, 0, 1]) by
      unfold rightExt; rw [if_neg (by norm_num)]]
  refine ⟨hscale, ?_, ?_, by norm_num⟩
  · rw [curvesOf]
    rw [show nOf ⟨some ["a", "b"], none, 1/10, none, true, 1, 2, none⟩
      [[some 2, some 4]] = 2 from rfl]
    rw [show List.range 2 = [0, 1] from rfl, List.map_cons, List.map_cons,
      List.map_nil]
    rw [show (⟨some ["a", "b"], none, 1/10, none, true, 1, 2, none⟩ :
      Config).tol = 1/10 from rfl]
    rw [show mOf ⟨some ["a", "b"], none, 1/10, none, true, 1, 2, none⟩
      [[some 2, some 4]] = 1 from rfl]
    rw [hthA, hrA0, hrA1, hcA0, hcA1]
  · rw [curvesOf]
    rw [show nOf ⟨some ["a", "b"], none, 1/10, none, true, 1, 2, none⟩
      [[some 1, some 2]] = 2 from rfl]
    rw [show List.range 2 = [0, 1] from rfl, List.map_cons, List.map_cons,
      List.map_nil]
    rw [show (⟨some ["a", "b"], none, 1/10, none, true, 1, 2, none⟩ :
      Config).tol = 1/10 from rfl]
    rw [show mOf ⟨some ["a", "b"], none, 1/10, none, true, 1, 2, none⟩
      [[some 1, some 2]] = 1 from rfl]
    rw [hthB, hrB0, hrB1, hcB0, hcB1]

/-- C5 amended: with the small-value adjustment disabled, scaling the whole
measurement matrix by any positive constant leaves the entire call
unchanged - same validation outcome and exactly the same curves - because
every ratio `data[i][j] / minvals[i]` is scale-invariant.  The positivity
hypothesis is the data-model side condition (finite entries positive) under
which the embedding's division matches the program's. -/
theorem c5_amended (cfg : Config) (tex0 : Bool) (data : List (List Val))
    (c : ℚ) (hc : 0 < c) (hpp : cfg.ppfix = false)
    (hpos : ∀ row ∈ data, ∀ v ∈ row, ∀ q, v = some q → 0 < q) :
    perfprof cfg tex0 (scaleData c data) = perfprof cfg tex0 data := by
  unfold perfprof
  rw [nOf_scale cfg data c hpp, curvesOf_scale cfg data c hc hpp]

theorem c5_amended_witness :
    (0 : ℚ) < 3 ∧
    perfprof ⟨some ["a", "b"], none, 1/10, none, false, 0, 0, none⟩ false
        (scaleData 3 [[some 1, some 2]]) =
      perfprof ⟨some ["a", "b"], none, 1/10, none, false, 0, 0, none⟩ false
        [[some 1, some 2]] :=
  ⟨by norm_num,
    c5_amended ⟨some ["a", "b"], none, 1/10, none, false, 0, 0, none⟩ false
      [[some 1, some 2]] 3 (by norm_num) rfl
      (by
        intro row hr v hv q hq
        rcases List.mem_cons.mp hr with rfl | hr
        · rcases List.mem_cons.mp hv with rfl | hv
          · rw [Option.some_inj.mp hq.symm]
            norm_num
          · rcases List.mem_cons.mp hv with rfl | hv
            · rw [Option.some_inj.mp hq.symm]
              norm_num
            · cases hv
        · cases hr)⟩
